import Mathlib

/-!
Shallow embedding of the deferred command-buffer recorder from
`src/backend/gl/src/command.rs` (gfx OpenGL backend).

Modelling conventions:
* Machine integers (`u32`, `u64`) are modelled as `Nat`; where the source
  performs `u32` arithmetic whose wrapping could matter (`draw_indexed`),
  the result is reduced modulo `2 ^ 32` explicitly.
* The raw bytes written by `add::<f32>` / `add::<f64>` / `add::<i32>` are
  modelled as tagged bytes (`DataByte`): a 32-bit float value contributes
  four bytes, a 64-bit float eight bytes, a 32-bit integer four bytes.
  Byte counts and the originating typed value are preserved; the IEEE-754
  bit patterns themselves are abstracted (no float arithmetic occurs in
  the modelled code, floats are only stored and compared).
* Opaque foreign handles (programs, buffers, image views, attribute
  descriptors, blend descriptors) are compared only by identity in the
  source, so they are modelled as `Nat`.
* Panics (`assert_eq!` in `BufferSlice::append`, `unwrap`, `unreachable!`)
  are modelled by `Option`: a `none` result marks a panic.
* The `Arc<Mutex<BufferMemory>>` pool storage is inlined into the recorder
  state: the claims under study concern a single recorder, and `try_lock`
  always succeeds in single-threaded recording.
* Diagnostics (`error!` / `warn!` logging) have no effect on recorder
  state; where a claim mentions them (`reset`, `bind_index_buffer`) the
  operation additionally returns a `Bool` reporting that the diagnostic
  branch was taken.
-/

set_option synthInstance.maxHeartbeats 1000000

namespace GfxGL

/-- A byte of the auxiliary data buffer, tagged with the typed value it was
serialized from (`value`) and its position within that value's encoding
(`idx`). -/
inductive DataByte where
  | f32b (value : Int) (idx : Nat)
  | f64b (value : Int) (idx : Nat)
  | i32b (value : Int) (idx : Nat)
deriving DecidableEq

/-- Serialization of one 32-bit float: four bytes. -/
def serF32 (v : Int) : List DataByte := (List.range 4).map (DataByte.f32b v)

/-- Serialization of one 64-bit float: eight bytes. -/
def serF64 (v : Int) : List DataByte := (List.range 8).map (DataByte.f64b v)

/-- Serialization of one 32-bit integer: four bytes. -/
def serI32 (v : Int) : List DataByte := (List.range 4).map (DataByte.i32b v)

/-- `BufferSlice { offset: u32, size: u32 }`: the place of some data in a
buffer. -/
structure BufferSlice where
  offset : Nat
  size : Nat
deriving DecidableEq

/-- `BufferSlice::new()`. -/
def BufferSlice.new : BufferSlice := ⟨0, 0⟩

/-- `BufferSlice::append`. The source mutates `self` and `assert_eq!`s
contiguity; the panic is modelled as `none`. -/
def BufferSlice.append (self other : BufferSlice) : Option BufferSlice :=
  if self.size = 0 then
    some other
  else if self.offset + self.size = other.offset then
    some ⟨self.offset, self.size + other.size⟩
  else
    none

abbrev GLenum := Nat
abbrev GLuint := Nat
abbrev GLint := Int

/-- `hal::IndexType`. -/
inductive IndexType where
  | u16
  | u32
deriving DecidableEq

/-- Element width used by `draw_indexed`: 16-bit indices have width 2,
32-bit indices width 4. -/
def IndexType.width : IndexType → Nat
  | .u16 => 2
  | .u32 => 4

def GL_UNSIGNED_SHORT : GLenum := 0x1403
def GL_UNSIGNED_INT : GLenum := 0x1405

/-- GL index-type enum chosen by `draw_indexed`. -/
def IndexType.glType : IndexType → GLenum
  | .u16 => GL_UNSIGNED_SHORT
  | .u32 => GL_UNSIGNED_INT

/-- A `Range<u32>` value (`start .. end`). -/
structure URange where
  ustart : Nat
  uend : Nat
deriving DecidableEq

/-- Blend color / clear color `[f32; 4]`, identity-compared. -/
abbrev ColorValue := Int × Int × Int × Int

/-- The `Command` enum: one immutable log entry. -/
inductive Command where
  | Dispatch (x y z : Nat)
  | DispatchIndirect (buffer : GLuint) (offset : Nat)
  | Draw (primitive : GLenum) (vertices : URange) (instances : URange)
  | DrawIndexed (primitive : GLenum) (index_type : GLenum) (index_count : Nat)
      (index_buffer_offset : Nat) (base_vertex : Int) (instances : URange)
  | BindIndexBuffer (buffer : GLuint)
  | BindVertexBuffer (buffer : GLuint)
  | SetViewports (viewport_ptr : BufferSlice) (depth_range_ptr : BufferSlice)
  | SetScissors (ptr : BufferSlice)
  | SetBlendColor (cv : ColorValue)
  | ClearColor (value : ColorValue)
  | BindFrameBuffer (target : GLenum) (fbo : Nat)
  | BindTargetView (target : GLenum) (point : GLenum) (view : Nat)
  | SetDrawColorBuffers (count : Nat)
  | SetPatchSize (size : GLint)
  | BindProgram (program : GLuint)
  | BindBlendSlot (slot : Nat) (desc : Nat)
  | BindAttribute (attr : Nat)
  | UnbindAttribute (attr : Nat)
deriving DecidableEq

/-- The per-recorder state cache (`struct Cache`). -/
structure Cache where
  primitive : Option GLenum
  index_type : Option IndexType
  stencil_ref : Option (Nat × Nat)
  blend_color : Option ColorValue
  framebuffer : Option (GLenum × Nat)
  error_state : Bool
  patch_size : Option GLint
  program : Option GLuint
  blend_targets : Option (List (Option Nat))
deriving DecidableEq

/-- `Cache::new()`: everything unknown, error flag clear. -/
def Cache.new : Cache :=
  { primitive := none, index_type := none, stencil_ref := none,
    blend_color := none, framebuffer := none, error_state := false,
    patch_size := none, program := none, blend_targets := none }

/-- Device-limit subset used for validation. -/
structure Limits where
  max_viewports : Nat
deriving DecidableEq

/-- One command log plus one auxiliary data buffer (`pool::OwnedBuffer`). -/
structure OwnedBuffer where
  commands : List Command
  data : List DataByte
deriving DecidableEq

def OwnedBuffer.new : OwnedBuffer := ⟨[], []⟩

/-- Pool storage: `Linear` shares one buffer pair, `Individual` maps
buffer ids to their own pairs (association list standing in for the
source's hash map). -/
inductive BufferMemory where
  | Linear (buffer : OwnedBuffer)
  | Individual (storage : List (Nat × OwnedBuffer)) (next_buffer_id : Nat)
deriving DecidableEq

/-- Association-list lookup (`storage.get(&id)`). -/
def lookupBuffer : List (Nat × OwnedBuffer) → Nat → Option OwnedBuffer
  | [], _ => none
  | (k, b) :: rest, i => if k = i then some b else lookupBuffer rest i

/-- Association-list in-place update of an existing key. -/
def updateBuffer : List (Nat × OwnedBuffer) → Nat → OwnedBuffer → List (Nat × OwnedBuffer)
  | [], _, _ => []
  | (k, b) :: rest, i, nb =>
      if k = i then (k, nb) :: rest else (k, b) :: updateBuffer rest i nb

/-- `storage.get_mut(&id).map(|b| { b.commands.clear(); b.data.clear(); })`:
clears the pair at `id` when present, no-op otherwise. -/
def clearAt : List (Nat × OwnedBuffer) → Nat → List (Nat × OwnedBuffer)
  | [], _ => []
  | (k, b) :: rest, i =>
      if k = i then (k, OwnedBuffer.new) :: rest else (k, b) :: clearAt rest i

/-- `struct RawCommandBuffer`, with the shared pool memory inlined. -/
structure RawCommandBuffer where
  memory : BufferMemory
  buf : BufferSlice
  id : Nat
  individual_reset : Bool
  fbo : Nat
  display_fb : Nat
  cache : Cache
  limits : Limits
  active_attribs : Nat
deriving DecidableEq

/-- `RawCommandBuffer::new`: Linear pools hand out id 0 and forbid
individual reset; Individual pools insert a fresh pair under the next id. -/
def RawCommandBuffer.new (fbo : Nat) (limits : Limits) (memory : BufferMemory) :
    RawCommandBuffer :=
  let (id, individual_reset, memory) :=
    match memory with
    | .Linear b => (0, false, BufferMemory.Linear b)
    | .Individual storage nid =>
        (nid, true, BufferMemory.Individual (storage ++ [(nid, OwnedBuffer.new)]) (nid + 1))
  { memory := memory, buf := BufferSlice.new, id := id,
    individual_reset := individual_reset, fbo := fbo, display_fb := 0,
    cache := Cache.new, limits := limits, active_attribs := 0 }

/-- The buffer pair this recorder appends to (`match *memory { ... }` with
the `Individual` arm's `unwrap` modelled as `none`). -/
def RawCommandBuffer.getBuffer (s : RawCommandBuffer) : Option OwnedBuffer :=
  match s.memory with
  | .Linear b => some b
  | .Individual storage _ => lookupBuffer storage s.id

/-- Write back the recorder's buffer pair. -/
def RawCommandBuffer.setBuffer (s : RawCommandBuffer) (b : OwnedBuffer) :
    RawCommandBuffer :=
  match s.memory with
  | .Linear _ => { s with memory := .Linear b }
  | .Individual storage nid =>
      { s with memory := .Individual (updateBuffer storage s.id b) nid }

/-- The command log visible to this recorder. -/
def RawCommandBuffer.log (s : RawCommandBuffer) : List Command :=
  match s.getBuffer with
  | none => []
  | some b => b.commands

/-- The auxiliary data buffer visible to this recorder. -/
def RawCommandBuffer.dataBuf (s : RawCommandBuffer) : List DataByte :=
  match s.getBuffer with
  | none => []
  | some b => b.data

/-- A recorder is consistent when its buffer pair exists and its coverage
slice `buf` is empty or ends exactly at the log's tail, so that the slice
returned by the next `push_cmd` appends contiguously. -/
def RawCommandBuffer.consistent (s : RawCommandBuffer) : Bool :=
  match s.getBuffer with
  | none => false
  | some b => s.buf.size == 0 || s.buf.offset + s.buf.size == b.commands.length

/-- `soft_reset`: clears only the coverage slice and the state cache. -/
def RawCommandBuffer.soft_reset (s : RawCommandBuffer) : RawCommandBuffer :=
  { s with buf := BufferSlice.new, cache := Cache.new }

/-- `push_cmd`: append one command to the active log and merge the length-1
tail slice into the recorder's coverage slice. -/
def RawCommandBuffer.push_cmd (s : RawCommandBuffer) (cmd : Command) :
    Option RawCommandBuffer :=
  match s.getBuffer with
  | none => none
  | some b =>
      let cmds := b.commands ++ [cmd]
      match s.buf.append ⟨cmds.length - 1, 1⟩ with
      | none => none
      | some buf => some { s.setBuffer { b with commands := cmds } with buf := buf }

/-- `add_raw` (and the typed `add<T>` once elements are serialized): copy
bytes to the tail of the active data buffer, return the covering slice. -/
def RawCommandBuffer.add_raw (s : RawCommandBuffer) (bytes : List DataByte) :
    Option (RawCommandBuffer × BufferSlice) :=
  match s.getBuffer with
  | none => none
  | some b =>
      let data := b.data ++ bytes
      some (s.setBuffer { b with data := data }, ⟨data.length - bytes.length, bytes.length⟩)

/-- `reset(release_resources)`. Returns the new state and whether the call
was rejected (`error!` + early return for non-individually-resettable
recorders). The `Linear` arm after the guard is `unreachable!` (`none`). -/
def RawCommandBuffer.reset (s : RawCommandBuffer) (_release_resources : Bool) :
    Option (RawCommandBuffer × Bool) :=
  if !s.individual_reset then
    some (s, true)
  else
    let s := s.soft_reset
    match s.memory with
    | .Linear _ => none
    | .Individual storage nid =>
        some ({ s with memory := .Individual (clearAt storage s.id) nid }, false)

/-- `hal::command::Rect { x, y, w, h : u16 }`. -/
structure Rect where
  x : Nat
  y : Nat
  w : Nat
  h : Nat
deriving DecidableEq

/-- `hal::command::Viewport`: a rect plus a depth range (f32 values,
modelled as identity-only `Int` stand-ins). -/
structure Viewport where
  rect : Rect
  depth_start : Int
  depth_end : Int
deriving DecidableEq

/-- Bytes written for one viewport rectangle: four 32-bit floats. -/
def rectF32Bytes (r : Rect) : List DataByte :=
  serF32 r.x ++ serF32 r.y ++ serF32 r.w ++ serF32 r.h

/-- Bytes written for one viewport depth range: two 64-bit floats. -/
def depthRangeBytes (v : Viewport) : List DataByte :=
  serF64 v.depth_start ++ serF64 v.depth_end

/-- Bytes written for one scissor rectangle: four 32-bit integers. -/
def scissorBytes (r : Rect) : List DataByte :=
  serI32 r.x ++ serI32 r.y ++ serI32 r.w ++ serI32 r.h

/-- The `for viewport in viewports` loop of `set_viewports`: serialize each
entry's rect and depth range, merging the returned slices into the running
`viewport_ptr` / `depth_range_ptr` coverage slices. -/
def viewportsLoop (s : RawCommandBuffer) (vp dr : BufferSlice) :
    List Viewport → Option (RawCommandBuffer × BufferSlice × BufferSlice)
  | [] => some (s, vp, dr)
  | v :: rest =>
      match s.add_raw (rectF32Bytes v.rect) with
      | none => none
      | some (s1, rectSlice) =>
          match vp.append rectSlice with
          | none => none
          | some vp1 =>
              match s1.add_raw (depthRangeBytes v) with
              | none => none
              | some (s2, depthSlice) =>
                  match dr.append depthSlice with
                  | none => none
                  | some dr1 => viewportsLoop s2 vp1 dr1 rest

/-- `set_viewports`. -/
def RawCommandBuffer.set_viewports (s : RawCommandBuffer)
    (viewports : List Viewport) : Option RawCommandBuffer :=
  match viewportsLoop s ⟨0, 0⟩ ⟨0, 0⟩ viewports with
  | none => none
  | some (s, viewport_ptr, depth_range_ptr) =>
      match viewports.length with
      | 0 => some { s with cache := { s.cache with error_state := true } }
      | n + 1 =>
          if n + 1 ≤ s.limits.max_viewports then
            s.push_cmd (.SetViewports viewport_ptr depth_range_ptr)
          else
            some { s with cache := { s.cache with error_state := true } }

/-- The `for scissor in scissors` loop of `set_scissors`. -/
def scissorsLoop (s : RawCommandBuffer) (ptr : BufferSlice) :
    List Rect → Option (RawCommandBuffer × BufferSlice)
  | [] => some (s, ptr)
  | r :: rest =>
      match s.add_raw (scissorBytes r) with
      | none => none
      | some (s1, slice) =>
          match ptr.append slice with
          | none => none
          | some ptr1 => scissorsLoop s1 ptr1 rest

/-- `set_scissors`. -/
def RawCommandBuffer.set_scissors (s : RawCommandBuffer)
    (scissors : List Rect) : Option RawCommandBuffer :=
  match scissorsLoop s ⟨0, 0⟩ scissors with
  | none => none
  | some (s, scissors_ptr) =>
      match scissors.length with
      | 0 => some { s with cache := { s.cache with error_state := true } }
      | n + 1 =>
          if n + 1 ≤ s.limits.max_viewports then
            s.push_cmd (.SetScissors scissors_ptr)
          else
            some { s with cache := { s.cache with error_state := true } }

/-- `hal::buffer::IndexBufferView`: raw buffer handle, byte offset, index
type. -/
structure IndexBufferView where
  buffer_raw : GLuint
  offset : Nat
  index_type : IndexType
deriving DecidableEq

/-- `bind_index_buffer`: caches the index type and pushes one
bind-index-buffer command carrying only the raw handle. The returned
`Bool` reports whether the non-zero-offset warning fired. -/
def RawCommandBuffer.bind_index_buffer (s : RawCommandBuffer)
    (ibv : IndexBufferView) : Option (RawCommandBuffer × Bool) :=
  let warned := decide (ibv.offset > 0)
  let s := { s with cache := { s.cache with index_type := some ibv.index_type } }
  match s.push_cmd (.BindIndexBuffer ibv.buffer_raw) with
  | none => none
  | some s1 => some (s1, warned)

/-- `set_blend_constants`. -/
def RawCommandBuffer.set_blend_constants (s : RawCommandBuffer)
    (cv : ColorValue) : Option RawCommandBuffer :=
  if s.cache.blend_color ≠ some cv then
    let s := { s with cache := { s.cache with blend_color := some cv } }
    s.push_cmd (.SetBlendColor cv)
  else
    some s

/-- `draw`. -/
def RawCommandBuffer.draw (s : RawCommandBuffer)
    (vertices instances : URange) : Option RawCommandBuffer :=
  match s.cache.primitive with
  | some primitive => s.push_cmd (.Draw primitive vertices instances)
  | none => some { s with cache := { s.cache with error_state := true } }

def U32MOD : Nat := 2 ^ 32

/-- `draw_indexed`. `indices.start * width` and `indices.end -
indices.start` are `u32` operations: both are reduced modulo `2 ^ 32`
(the subtraction via `U32MOD + uend - ustart`, which agrees with wrapping
for in-range `u32` inputs). -/
def RawCommandBuffer.draw_indexed (s : RawCommandBuffer) (indices : URange)
    (base_vertex : Int) (instances : URange) : Option RawCommandBuffer :=
  match s.cache.index_type with
  | none => some { s with cache := { s.cache with error_state := true } }
  | some ity =>
      let start := indices.ustart * ity.width % U32MOD
      match s.cache.primitive with
      | some primitive =>
          s.push_cmd (.DrawIndexed primitive ity.glType
            ((U32MOD + indices.uend - indices.ustart) % U32MOD) start base_vertex instances)
      | none => some { s with cache := { s.cache with error_state := true } }

/-- `n::GraphicsPipeline`: the fields read by `bind_graphics_pipeline`.
Blend descriptors and attribute descriptors are identity-only handles. -/
structure GraphicsPipeline where
  primitive : GLenum
  patch_size : Option GLint
  program : GLuint
  blend_targets : List Nat
  attributes : List Nat
deriving DecidableEq

/-- Growth phase of `update_blend_targets`: when at least one slot is
referenced, create or resize the cache vector so it covers every slot,
filling new slots with `none` (unknown). -/
def growBlendCache (cache : Option (List (Option Nat))) (n : Nat) :
    Option (List (Option Nat)) :=
  if n > 0 then
    match cache with
    | some cached =>
        if cached.length < n then some (cached ++ List.replicate (n - cached.length) none)
        else some cached
    | none => some (List.replicate n none)
  else cache

/-- The `for (slot, blend_target) in blend_targets.iter().enumerate()` loop
of `update_blend_targets`: emit a bind-blend-slot command only when the
cached slot is unknown or differs, updating the cached slot first. -/
def blendLoop (s : RawCommandBuffer) (slot : Nat) :
    List Nat → Option RawCommandBuffer
  | [] => some s
  | bt :: rest =>
      let update_blend : Bool :=
        match s.cache.blend_targets with
        | some cached =>
            match cached.get? slot with
            | some (some c) => c != bt
            | some none => true
            | none => false
        | none => false
      let s1 :=
        if update_blend then
          match s.cache.blend_targets with
          | some cached =>
              { s with cache := { s.cache with blend_targets := some (cached.set slot (some bt)) } }
          | none => s
        else s
      if update_blend then
        match s1.push_cmd (.BindBlendSlot slot bt) with
        | none => none
        | some s2 => blendLoop s2 (slot + 1) rest
      else
        blendLoop s1 (slot + 1) rest

/-- `update_blend_targets`. -/
def RawCommandBuffer.update_blend_targets (s : RawCommandBuffer)
    (blend_targets : List Nat) : Option RawCommandBuffer :=
  let s := { s with cache :=
    { s.cache with blend_targets := growBlendCache s.cache.blend_targets blend_targets.length } }
  blendLoop s 0 blend_targets

/-- The `for attribute in attributes` loop of `bind_graphics_pipeline`:
bind-attribute commands are pushed unconditionally, never deduplicated. -/
def attributesLoop (s : RawCommandBuffer) :
    List Nat → Option RawCommandBuffer
  | [] => some s
  | a :: rest =>
      match s.push_cmd (.BindAttribute a) with
      | none => none
      | some s1 => attributesLoop s1 rest

/-- First block of `bind_graphics_pipeline`: cache the primitive topology
if it changed (no command is ever emitted for it). -/
def bindPrimitiveStage (s : RawCommandBuffer) (p : GraphicsPipeline) :
    RawCommandBuffer :=
  if s.cache.primitive ≠ some p.primitive then
    { s with cache := { s.cache with primitive := some p.primitive } }
  else s

/-- Second block of `bind_graphics_pipeline`: on a patch-size change cache
the new value and emit set-patch-size when it is a concrete size. -/
def bindPatchStage (s : RawCommandBuffer) (p : GraphicsPipeline) :
    Option RawCommandBuffer :=
  if s.cache.patch_size ≠ p.patch_size then
    let s := { s with cache := { s.cache with patch_size := p.patch_size } }
    match p.patch_size with
    | some size => s.push_cmd (.SetPatchSize size)
    | none => some s
  else some s

/-- Third block of `bind_graphics_pipeline`: on a program change cache the
new program and emit bind-program. -/
def bindProgramStage (s : RawCommandBuffer) (p : GraphicsPipeline) :
    Option RawCommandBuffer :=
  if s.cache.program ≠ some p.program then
    let s := { s with cache := { s.cache with program := some p.program } }
    s.push_cmd (.BindProgram p.program)
  else some s

/-- `bind_graphics_pipeline`: the four sequential blocks of the source,
followed by `update_blend_targets`. -/
def RawCommandBuffer.bind_graphics_pipeline (s : RawCommandBuffer)
    (p : GraphicsPipeline) : Option RawCommandBuffer :=
  match bindPatchStage (bindPrimitiveStage s p) p with
  | none => none
  | some s =>
      match bindProgramStage s p with
      | none => none
      | some s =>
          match attributesLoop s p.attributes with
          | none => none
          | some s => s.update_blend_targets p.blend_targets

/-! Observation helpers and emission specifications (pure functions used
only to state and prove properties of the operations above). -/

def isBindProgram : Command → Bool
  | .BindProgram _ => true
  | _ => false

def isSetPatchSize : Command → Bool
  | .SetPatchSize _ => true
  | _ => false

def isSetBlendColor : Command → Bool
  | .SetBlendColor _ => true
  | _ => false

def isBindBlendSlot : Command → Bool
  | .BindBlendSlot _ _ => true
  | _ => false

def isBindAttribute : Command → Bool
  | .BindAttribute _ => true
  | _ => false

/-- Number of commands in `l` satisfying `f`. -/
def countCmd (f : Command → Bool) (l : List Command) : Nat :=
  (l.filter f).length

/-- Overwrite slots `slot, slot+1, ...` of `l` with the given descriptors:
the final blend cache contents after `blendLoop`. -/
def setAll (l : List (Option Nat)) (slot : Nat) : List Nat → List (Option Nat)
  | [] => l
  | bt :: rest => setAll (l.set slot (some bt)) (slot + 1) rest

/-- The bind-blend-slot commands `blendLoop` emits when started on cache
vector `l` at `slot`: one per slot that is unknown or differs. -/
def emittedBlend (l : List (Option Nat)) (slot : Nat) : List Nat → List Command
  | [] => []
  | bt :: rest =>
      let differs : Bool :=
        match l.get? slot with
        | some (some c) => c != bt
        | some none => true
        | none => false
      (if differs then [Command.BindBlendSlot slot bt] else []) ++
        emittedBlend (if differs then l.set slot (some bt) else l) (slot + 1) rest

/-- Commands the patch-size step of `bind_graphics_pipeline` emits. -/
def patchEmits (c : Cache) (p : GraphicsPipeline) : List Command :=
  if c.patch_size ≠ p.patch_size then
    match p.patch_size with
    | some size => [Command.SetPatchSize size]
    | none => []
  else []

/-- Commands the program step of `bind_graphics_pipeline` emits. -/
def progEmits (c : Cache) (p : GraphicsPipeline) : List Command :=
  if c.program ≠ some p.program then [Command.BindProgram p.program] else []

/-- Commands `update_blend_targets` emits, given the cache field before the
call. -/
def blendEmits (o : Option (List (Option Nat))) (bts : List Nat) : List Command :=
  emittedBlend ((growBlendCache o bts.length).getD []) 0 bts

/-- The cache after `update_blend_targets`: grown, then every referenced
slot overwritten with the bound descriptor. -/
def updatedBlendCache (c : Cache) (bts : List Nat) : Cache :=
  { c with
    blend_targets := (growBlendCache c.blend_targets bts.length).map
      (fun l => setAll l 0 bts) }

/-- All commands one `bind_graphics_pipeline` call appends. -/
def bindEmits (c : Cache) (p : GraphicsPipeline) : List Command :=
  patchEmits c p ++ progEmits c p ++ p.attributes.map Command.BindAttribute ++
    blendEmits c.blend_targets p.blend_targets

/-- The cache after `bind_graphics_pipeline`. -/
def bindCache (c : Cache) (p : GraphicsPipeline) : Cache :=
  updatedBlendCache
    { c with
      primitive := some p.primitive
      patch_size := p.patch_size
      program := some p.program }
    p.blend_targets

/-- Cached blend descriptor of `slot` (`none` when the vector is absent,
too short, or the slot is unknown). -/
def blendCacheGet (s : RawCommandBuffer) (slot : Nat) : Option Nat :=
  match s.cache.blend_targets with
  | none => none
  | some l =>
      match l.get? slot with
      | none => none
      | some e => e

/-- Length of the cached blend vector (0 when absent). -/
def blendCacheLen (s : RawCommandBuffer) : Nat :=
  match s.cache.blend_targets with
  | none => 0
  | some l => l.length

/-- Flatten one level of `Option`: the descriptor stored at a cache entry
that may itself be missing. -/
def flat2 : Option (Option Nat) → Option Nat
  | none => none
  | some e => e

/-- Concatenated payload bytes of a scissor list: 16 bytes per entry. -/
def scissorData : List Rect → List DataByte
  | [] => []
  | r :: rest => scissorBytes r ++ scissorData rest

/-- Concatenated payload bytes of a viewport list: 32 bytes per entry,
rect bytes and depth-range bytes interleaved as `set_viewports` writes
them. -/
def viewportData : List Viewport → List DataByte
  | [] => []
  | v :: rest => rectF32Bytes v.rect ++ depthRangeBytes v ++ viewportData rest

/-! Concrete states used by witnesses and counterexamples. -/

/-- A fresh recorder over a Linear pool with the given viewport limit. -/
def linearInit (mv : Nat) : RawCommandBuffer :=
  RawCommandBuffer.new 0 ⟨mv⟩ (.Linear .new)

/-- A recorder with a 16-bit index type and a topology cached, as left by
`bind_index_buffer` and `bind_graphics_pipeline`. -/
def boundState : RawCommandBuffer :=
  { linearInit 16 with cache :=
    { Cache.new with index_type := some IndexType.u16, primitive := some 4 } }

def vpA : Viewport := ⟨⟨0, 0, 640, 480⟩, 0, 1⟩
def vpB : Viewport := ⟨⟨10, 20, 320, 240⟩, 0, 1⟩
def vpC : Viewport := ⟨⟨1, 2, 3, 4⟩, 5, 6⟩
def vpD : Viewport := ⟨⟨7, 8, 9, 10⟩, 11, 12⟩
def vpE : Viewport := ⟨⟨2, 4, 6, 8⟩, 0, 1⟩
def scA : Rect := ⟨0, 0, 800, 600⟩
def scB : Rect := ⟨5, 5, 100, 100⟩

/-- A pipeline with a patch size, a program and no attributes or blend
targets. -/
def pipeA : GraphicsPipeline := ⟨4, some 3, 42, [], []⟩

/-- A pipeline with two vertex attributes and one blend target. -/
def pipeB : GraphicsPipeline := ⟨4, none, 7, [5], [11, 12]⟩

/-! ## Projection lemmas -/

@[simp]
theorem setBuffer_cache (s : RawCommandBuffer) (b : OwnedBuffer) :
    (s.setBuffer b).cache = s.cache := by
  obtain ⟨m, bf, i, ir, fb, df, c, li, aa⟩ := s
  cases m <;> rfl

@[simp]
theorem setBuffer_buf (s : RawCommandBuffer) (b : OwnedBuffer) :
    (s.setBuffer b).buf = s.buf := by
  obtain ⟨m, bf, i, ir, fb, df, c, li, aa⟩ := s
  cases m <;> rfl

@[simp]
theorem setBuffer_limits (s : RawCommandBuffer) (b : OwnedBuffer) :
    (s.setBuffer b).limits = s.limits := by
  obtain ⟨m, bf, i, ir, fb, df, c, li, aa⟩ := s
  cases m <;> rfl

@[simp]
theorem setBuffer_id (s : RawCommandBuffer) (b : OwnedBuffer) :
    (s.setBuffer b).id = s.id := by
  obtain ⟨m, bf, i, ir, fb, df, c, li, aa⟩ := s
  cases m <;> rfl

@[simp]
theorem setBuffer_individual_reset (s : RawCommandBuffer) (b : OwnedBuffer) :
    (s.setBuffer b).individual_reset = s.individual_reset := by
  obtain ⟨m, bf, i, ir, fb, df, c, li, aa⟩ := s
  cases m <;> rfl

theorem lookupBuffer_updateBuffer (st : List (Nat × OwnedBuffer)) (i : Nat)
    (nb b0 : OwnedBuffer) (h : lookupBuffer st i = some b0) :
    lookupBuffer (updateBuffer st i nb) i = some nb := by
  induction st with
  | nil => simp [lookupBuffer] at h
  | cons kv rest ih =>
      obtain ⟨k, b⟩ := kv
      by_cases hk : k = i
      · simp [lookupBuffer, updateBuffer, hk]
      · simp only [lookupBuffer, updateBuffer, if_neg hk] at h ⊢
        exact ih h

theorem getBuffer_setBuffer (s : RawCommandBuffer) (nb b0 : OwnedBuffer)
    (h : s.getBuffer = some b0) : (s.setBuffer nb).getBuffer = some nb := by
  obtain ⟨m, bf, i, ir, fb, df, c, li, aa⟩ := s
  cases m with
  | Linear b => rfl
  | Individual st nid =>
      simp only [RawCommandBuffer.getBuffer, RawCommandBuffer.setBuffer] at h ⊢
      exact lookupBuffer_updateBuffer st i nb b0 h

@[simp]
theorem getBuffer_withBuf (s : RawCommandBuffer) (x : BufferSlice) :
    RawCommandBuffer.getBuffer { s with buf := x } = s.getBuffer := rfl

@[simp]
theorem getBuffer_withCache (s : RawCommandBuffer) (c : Cache) :
    RawCommandBuffer.getBuffer { s with cache := c } = s.getBuffer := rfl

@[simp]
theorem log_withBuf (s : RawCommandBuffer) (x : BufferSlice) :
    RawCommandBuffer.log { s with buf := x } = s.log := rfl

@[simp]
theorem log_withCache (s : RawCommandBuffer) (c : Cache) :
    RawCommandBuffer.log { s with cache := c } = s.log := rfl

@[simp]
theorem dataBuf_withBuf (s : RawCommandBuffer) (x : BufferSlice) :
    RawCommandBuffer.dataBuf { s with buf := x } = s.dataBuf := rfl

@[simp]
theorem dataBuf_withCache (s : RawCommandBuffer) (c : Cache) :
    RawCommandBuffer.dataBuf { s with cache := c } = s.dataBuf := rfl

@[simp]
theorem consistent_withCache (s : RawCommandBuffer) (c : Cache) :
    RawCommandBuffer.consistent { s with cache := c } = s.consistent := rfl

theorem consistent_iff (s : RawCommandBuffer) :
    s.consistent = true ↔
      ∃ b, s.getBuffer = some b ∧
        (s.buf.size = 0 ∨ s.buf.offset + s.buf.size = b.commands.length) := by
  unfold RawCommandBuffer.consistent
  cases hg : s.getBuffer with
  | none => simp
  | some b =>
      simp only [Bool.or_eq_true, beq_iff_eq, Option.some.injEq]
      constructor
      · rintro (h | h)
        · exact ⟨b, rfl, Or.inl h⟩
        · exact ⟨b, rfl, Or.inr h⟩
      · rintro ⟨b', hb', h⟩
        cases hb'
        exact h.imp id id

theorem log_eq_of_getBuffer (s : RawCommandBuffer) (b : OwnedBuffer)
    (h : s.getBuffer = some b) : s.log = b.commands := by
  unfold RawCommandBuffer.log
  rw [h]

theorem dataBuf_eq_of_getBuffer (s : RawCommandBuffer) (b : OwnedBuffer)
    (h : s.getBuffer = some b) : s.dataBuf = b.data := by
  unfold RawCommandBuffer.dataBuf
  rw [h]

/-! ## `push_cmd` and `add_raw` -/

theorem push_cmd_spec (s : RawCommandBuffer) (c : Command)
    (hc : s.consistent = true) :
    ∃ s', s.push_cmd c = some s' ∧
      s'.log = s.log ++ [c] ∧
      s'.dataBuf = s.dataBuf ∧
      s'.cache = s.cache ∧
      s'.limits = s.limits ∧
      s'.id = s.id ∧
      s'.individual_reset = s.individual_reset ∧
      s'.consistent = true := by
  obtain ⟨b, hg, hb⟩ := (consistent_iff s).1 hc
  have hlog := log_eq_of_getBuffer s b hg
  have hdata := dataBuf_eq_of_getBuffer s b hg
  have hg' := getBuffer_setBuffer s { b with commands := b.commands ++ [c] } b hg
  unfold RawCommandBuffer.push_cmd
  rw [hg]
  simp only [List.length_append, List.length_singleton, Nat.add_sub_cancel]
  unfold BufferSlice.append
  rcases hb with hb | hb
  · rw [if_pos hb]
    refine ⟨_, rfl, ?_, ?_, by simp, by simp, by simp, by simp, ?_⟩
    · show RawCommandBuffer.log _ = _
      rw [log_withBuf, log_eq_of_getBuffer _ _ hg', hlog]
    · show RawCommandBuffer.dataBuf _ = _
      rw [dataBuf_withBuf, dataBuf_eq_of_getBuffer _ _ hg', hdata]
    · rw [consistent_iff]
      exact ⟨_, by rw [getBuffer_withBuf]; exact hg', Or.inr (by simp)⟩
  · have hsz : ¬ s.buf.size = 0 ∨ s.buf.size = 0 := em' _
    by_cases h0 : s.buf.size = 0
    · rw [if_pos h0]
      refine ⟨_, rfl, ?_, ?_, by simp, by simp, by simp, by simp, ?_⟩
      · show RawCommandBuffer.log _ = _
        rw [log_withBuf, log_eq_of_getBuffer _ _ hg', hlog]
      · show RawCommandBuffer.dataBuf _ = _
        rw [dataBuf_withBuf, dataBuf_eq_of_getBuffer _ _ hg', hdata]
      · rw [consistent_iff]
        exact ⟨_, by rw [getBuffer_withBuf]; exact hg', Or.inr (by simp)⟩
    · rw [if_neg h0, if_pos hb]
      refine ⟨_, rfl, ?_, ?_, by simp, by simp, by simp, by simp, ?_⟩
      · show RawCommandBuffer.log _ = _
        rw [log_withBuf, log_eq_of_getBuffer _ _ hg', hlog]
      · show RawCommandBuffer.dataBuf _ = _
        rw [dataBuf_withBuf, dataBuf_eq_of_getBuffer _ _ hg', hdata]
      · rw [consistent_iff]
        refine ⟨_, by rw [getBuffer_withBuf]; exact hg', Or.inr ?_⟩
        simp only [List.length_append, List.length_singleton]
        omega

@[simp]
theorem length_serF32 (v : Int) : (serF32 v).length = 4 := by
  simp [serF32]

@[simp]
theorem length_serF64 (v : Int) : (serF64 v).length = 8 := by
  simp [serF64]

@[simp]
theorem length_serI32 (v : Int) : (serI32 v).length = 4 := by
  simp [serI32]

@[simp]
theorem length_rectF32Bytes (r : Rect) : (rectF32Bytes r).length = 16 := by
  simp [rectF32Bytes]

@[simp]
theorem length_depthRangeBytes (v : Viewport) : (depthRangeBytes v).length = 16 := by
  simp [depthRangeBytes]

@[simp]
theorem length_scissorBytes (r : Rect) : (scissorBytes r).length = 16 := by
  simp [scissorBytes]

theorem add_raw_spec (s : RawCommandBuffer) (bytes : List DataByte)
    (b : OwnedBuffer) (hg : s.getBuffer = some b) :
    ∃ s', s.add_raw bytes = some (s', ⟨b.data.length, bytes.length⟩) ∧
      s'.getBuffer = some { b with data := b.data ++ bytes } ∧
      s'.log = s.log ∧
      s'.dataBuf = s.dataBuf ++ bytes ∧
      s'.cache = s.cache ∧
      s'.buf = s.buf ∧
      s'.limits = s.limits ∧
      s'.consistent = s.consistent := by
  have hg' := getBuffer_setBuffer s { b with data := b.data ++ bytes } b hg
  refine ⟨_, ?_, hg', ?_, ?_, by simp, by simp, by simp, ?_⟩
  · unfold RawCommandBuffer.add_raw
    rw [hg]
    simp
  · rw [log_eq_of_getBuffer _ _ hg', log_eq_of_getBuffer _ _ hg]
  · rw [dataBuf_eq_of_getBuffer _ _ hg', dataBuf_eq_of_getBuffer _ _ hg]
  · unfold RawCommandBuffer.consistent
    rw [hg, hg', setBuffer_buf]

/-! ## `set_scissors` -/

theorem scissorsLoop_go (rects : List Rect) :
    ∀ (s : RawCommandBuffer) (b : OwnedBuffer) (ofs sz : Nat),
      s.getBuffer = some b → sz ≠ 0 → ofs + sz = b.data.length →
      ∃ s', scissorsLoop s ⟨ofs, sz⟩ rects =
          some (s', ⟨ofs, sz + 16 * rects.length⟩) ∧
        s'.getBuffer = some { b with data := b.data ++ scissorData rects } ∧
        s'.log = s.log ∧ s'.cache = s.cache ∧ s'.buf = s.buf ∧
        s'.limits = s.limits ∧ s'.consistent = s.consistent := by
  induction rects with
  | nil =>
      intro s b ofs sz hg _ _
      refine ⟨s, ?_, ?_, rfl, rfl, rfl, rfl, rfl⟩
      · simp [scissorsLoop]
      · rw [hg]
        simp [scissorData]
  | cons r rest ih =>
      intro s b ofs sz hg hsz hofs
      obtain ⟨s1, hadd, hg1, hlog1, hdata1, hcache1, hbuf1, hlim1, hcons1⟩ :=
        add_raw_spec s (scissorBytes r) b hg
      obtain ⟨s', hloop, hg', hlog', hcache', hbuf', hlim', hcons'⟩ :=
        ih s1 { b with data := b.data ++ scissorBytes r } ofs (sz + 16) hg1
          (by omega) (by simp; omega)
      refine ⟨s', ?_, ?_, by rw [hlog', hlog1], by rw [hcache', hcache1],
        by rw [hbuf', hbuf1], by rw [hlim', hlim1], by rw [hcons', hcons1]⟩
      · unfold scissorsLoop
        rw [hadd]
        unfold BufferSlice.append
        simp only [if_neg hsz, length_scissorBytes, if_pos hofs]
        rw [hloop]
        have : sz + 16 + 16 * rest.length = sz + 16 * (rest.length + 1) := by ring
        simp [this]
      · rw [hg']
        simp [scissorData]

theorem set_scissors_empty (s : RawCommandBuffer) :
    s.set_scissors [] =
      some { s with cache := { s.cache with error_state := true } } := rfl

theorem set_scissors_over_spec (s : RawCommandBuffer) (b : OwnedBuffer)
    (r : Rect) (rest : List Rect) (hg : s.getBuffer = some b)
    (hover : rest.length + 1 > s.limits.max_viewports) :
    ∃ s', s.set_scissors (r :: rest) = some s' ∧
      s'.log = s.log ∧
      s'.dataBuf = s.dataBuf ++ scissorData (r :: rest) ∧
      s'.cache = { s.cache with error_state := true } ∧
      s'.buf = s.buf := by
  obtain ⟨s1, hadd, hg1, hlog1, hdata1, hcache1, hbuf1, hlim1, hcons1⟩ :=
    add_raw_spec s (scissorBytes r) b hg
  obtain ⟨s2, hloop, hg2, hlog2, hcache2, hbuf2, hlim2, hcons2⟩ :=
    scissorsLoop_go rest s1 { b with data := b.data ++ scissorBytes r }
      b.data.length 16 hg1 (by omega) (by simp)
  refine ⟨{ s2 with cache := { s2.cache with error_state := true } }, ?_, ?_, ?_, ?_, ?_⟩
  · unfold RawCommandBuffer.set_scissors
    unfold scissorsLoop
    rw [hadd]
    unfold BufferSlice.append
    simp only [if_pos rfl, length_scissorBytes, if_true]
    rw [hloop]
    simp only [List.length_cons]
    rw [if_neg (by rw [hlim2, hlim1]; omega)]
  · rw [log_withCache, hlog2, hlog1]
  · rw [dataBuf_withCache, dataBuf_eq_of_getBuffer _ _ hg2,
      dataBuf_eq_of_getBuffer _ _ hg]
    simp [scissorData]
  · rw [hcache2, hcache1]
  · rw [hbuf2, hbuf1]

/-! ## `set_viewports` -/

theorem set_viewports_empty (s : RawCommandBuffer) :
    s.set_viewports [] =
      some { s with cache := { s.cache with error_state := true } } := rfl

theorem viewportsLoop_single (s : RawCommandBuffer) (b : OwnedBuffer)
    (v : Viewport) (hg : s.getBuffer = some b) :
    ∃ s2, viewportsLoop s ⟨0, 0⟩ ⟨0, 0⟩ [v] =
        some (s2, ⟨b.data.length, 16⟩, ⟨b.data.length + 16, 16⟩) ∧
      s2.getBuffer = some { b with data := b.data ++ viewportData [v] } ∧
      s2.log = s.log ∧ s2.cache = s.cache ∧ s2.buf = s.buf ∧
      s2.limits = s.limits ∧ s2.consistent = s.consistent := by
  obtain ⟨s1, hadd1, hg1, hlog1, hdata1, hcache1, hbuf1, hlim1, hcons1⟩ :=
    add_raw_spec s (rectF32Bytes v.rect) b hg
  obtain ⟨s2, hadd2, hg2, hlog2, hdata2, hcache2, hbuf2, hlim2, hcons2⟩ :=
    add_raw_spec s1 (depthRangeBytes v) { b with data := b.data ++ rectF32Bytes v.rect } hg1
  refine ⟨s2, ?_, ?_, by rw [hlog2, hlog1], by rw [hcache2, hcache1],
    by rw [hbuf2, hbuf1], by rw [hlim2, hlim1], by rw [hcons2, hcons1]⟩
  · unfold viewportsLoop
    rw [hadd1]
    unfold BufferSlice.append
    simp only [if_pos rfl, length_rectF32Bytes, if_true]
    rw [hadd2]
    simp only [length_depthRangeBytes, List.length_append, length_rectF32Bytes]
    unfold viewportsLoop
    rfl
  · rw [hg2]
    simp [viewportData]

theorem set_viewports_single_within (s : RawCommandBuffer) (b : OwnedBuffer)
    (v : Viewport) (hg : s.getBuffer = some b) (hc : s.consistent = true)
    (hmax : 1 ≤ s.limits.max_viewports) :
    ∃ s', s.set_viewports [v] = some s' ∧
      s'.log = s.log ++
        [Command.SetViewports ⟨b.data.length, 16⟩ ⟨b.data.length + 16, 16⟩] ∧
      s'.dataBuf = s.dataBuf ++ viewportData [v] ∧
      s'.cache = s.cache ∧
      s'.limits = s.limits ∧
      s'.consistent = true := by
  obtain ⟨s2, hloop, hg2, hlog2, hcache2, hbuf2, hlim2, hcons2⟩ :=
    viewportsLoop_single s b v hg
  obtain ⟨s', hpush, hlog', hdata', hcache', hlim', _, _, hcons'⟩ :=
    push_cmd_spec s2
      (.SetViewports ⟨b.data.length, 16⟩ ⟨b.data.length + 16, 16⟩)
      (by rw [hcons2]; exact hc)
  refine ⟨s', ?_, ?_, ?_, by rw [hcache', hcache2], by rw [hlim', hlim2], hcons'⟩
  · unfold RawCommandBuffer.set_viewports
    rw [hloop]
    simp only [List.length_singleton]
    rw [if_pos (by rw [hlim2]; exact hmax)]
    exact hpush
  · rw [hlog', hlog2]
  · rw [hdata', dataBuf_eq_of_getBuffer _ _ hg2, dataBuf_eq_of_getBuffer _ _ hg]

theorem set_viewports_single_over (s : RawCommandBuffer) (b : OwnedBuffer)
    (v : Viewport) (hg : s.getBuffer = some b)
    (hover : s.limits.max_viewports < 1) :
    ∃ s', s.set_viewports [v] = some s' ∧
      s'.log = s.log ∧
      s'.dataBuf = s.dataBuf ++ viewportData [v] ∧
      s'.cache = { s.cache with error_state := true } ∧
      s'.buf = s.buf := by
  obtain ⟨s2, hloop, hg2, hlog2, hcache2, hbuf2, hlim2, hcons2⟩ :=
    viewportsLoop_single s b v hg
  refine ⟨{ s2 with cache := { s2.cache with error_state := true } }, ?_, ?_, ?_, ?_, ?_⟩
  · unfold RawCommandBuffer.set_viewports
    rw [hloop]
    simp only [List.length_singleton]
    rw [if_neg (by rw [hlim2]; omega)]
  · rw [log_withCache, hlog2]
  · rw [dataBuf_withCache, dataBuf_eq_of_getBuffer _ _ hg2,
      dataBuf_eq_of_getBuffer _ _ hg]
  · rw [hcache2]
  · rw [hbuf2]

theorem set_viewports_multi_none (s : RawCommandBuffer) (b : OwnedBuffer)
    (v1 v2 : Viewport) (rest : List Viewport) (hg : s.getBuffer = some b) :
    s.set_viewports (v1 :: v2 :: rest) = none := by
  obtain ⟨s1, hadd1, hg1, hlog1, hdata1, hcache1, hbuf1, hlim1, hcons1⟩ :=
    add_raw_spec s (rectF32Bytes v1.rect) b hg
  obtain ⟨s2, hadd2, hg2, hlog2, hdata2, hcache2, hbuf2, hlim2, hcons2⟩ :=
    add_raw_spec s1 (depthRangeBytes v1) { b with data := b.data ++ rectF32Bytes v1.rect } hg1
  obtain ⟨s3, hadd3, hg3, hlog3, hdata3, hcache3, hbuf3, hlim3, hcons3⟩ :=
    add_raw_spec s2 (rectF32Bytes v2.rect) _ hg2
  unfold RawCommandBuffer.set_viewports
  unfold viewportsLoop
  rw [hadd1]
  unfold BufferSlice.append
  simp only [if_pos rfl, length_rectF32Bytes, if_true]
  rw [hadd2]
  simp only [length_depthRangeBytes, List.length_append, length_rectF32Bytes]
  unfold viewportsLoop
  rw [hadd3]
  simp only [List.length_append, length_rectF32Bytes, length_depthRangeBytes]
  unfold BufferSlice.append
  rw [if_neg (by simp only []; omega), if_neg (by simp only []; omega)]

/-! ## `draw`, `draw_indexed`, `bind_index_buffer`, `set_blend_constants`,
`reset` -/

theorem draw_spec (s : RawCommandBuffer) (prim : GLenum) (verts inst : URange)
    (hc : s.consistent = true) (hp : s.cache.primitive = some prim) :
    ∃ s', s.draw verts inst = some s' ∧
      s'.log = s.log ++ [Command.Draw prim verts inst] ∧
      s'.dataBuf = s.dataBuf ∧
      s'.cache = s.cache ∧
      s'.consistent = true := by
  obtain ⟨s', hpush, hlog, hdata, hcache, _, _, _, hcons⟩ :=
    push_cmd_spec s (.Draw prim verts inst) hc
  refine ⟨s', ?_, hlog, hdata, hcache, hcons⟩
  unfold RawCommandBuffer.draw
  rw [hp]
  exact hpush

theorem draw_no_primitive (s : RawCommandBuffer) (verts inst : URange)
    (hp : s.cache.primitive = none) :
    s.draw verts inst =
      some { s with cache := { s.cache with error_state := true } } := by
  unfold RawCommandBuffer.draw
  rw [hp]

theorem U32MOD_eq : U32MOD = 4294967296 := by norm_num [U32MOD]

theorem draw_indexed_spec (s : RawCommandBuffer) (ity : IndexType)
    (prim : GLenum) (istart iend : Nat) (bv : Int) (inst : URange)
    (hc : s.consistent = true)
    (hi : s.cache.index_type = some ity)
    (hp : s.cache.primitive = some prim)
    (hst : istart * ity.width < U32MOD)
    (hle : istart ≤ iend) (hend : iend < U32MOD) :
    ∃ s', s.draw_indexed ⟨istart, iend⟩ bv inst = some s' ∧
      s'.log = s.log ++ [Command.DrawIndexed prim ity.glType (iend - istart)
        (istart * ity.width) bv inst] ∧
      s'.dataBuf = s.dataBuf ∧
      s'.cache = s.cache ∧
      s'.consistent = true := by
  obtain ⟨s', hpush, hlog, hdata, hcache, _, _, _, hcons⟩ :=
    push_cmd_spec s (.DrawIndexed prim ity.glType (iend - istart)
      (istart * ity.width) bv inst) hc
  refine ⟨s', ?_, hlog, hdata, hcache, hcons⟩
  unfold RawCommandBuffer.draw_indexed
  rw [hi, hp]
  simp only []
  have hstart : istart * ity.width % U32MOD = istart * ity.width :=
    Nat.mod_eq_of_lt hst
  have hcount : (U32MOD + iend - istart) % U32MOD = iend - istart := by
    rw [U32MOD_eq] at *
    omega
  rw [hstart, hcount]
  exact hpush

theorem draw_indexed_no_index_type (s : RawCommandBuffer) (indices : URange)
    (bv : Int) (inst : URange) (hi : s.cache.index_type = none) :
    s.draw_indexed indices bv inst =
      some { s with cache := { s.cache with error_state := true } } := by
  unfold RawCommandBuffer.draw_indexed
  rw [hi]

theorem bind_index_buffer_spec (s : RawCommandBuffer) (ibv : IndexBufferView)
    (hc : s.consistent = true) :
    ∃ s', s.bind_index_buffer ibv = some (s', decide (ibv.offset > 0)) ∧
      s'.log = s.log ++ [Command.BindIndexBuffer ibv.buffer_raw] ∧
      s'.dataBuf = s.dataBuf ∧
      s'.cache = { s.cache with index_type := some ibv.index_type } ∧
      s'.limits = s.limits ∧
      s'.consistent = true := by
  obtain ⟨s', hpush, hlog, hdata, hcache, hlim, _, _, hcons⟩ :=
    push_cmd_spec { s with cache := { s.cache with index_type := some ibv.index_type } }
      (.BindIndexBuffer ibv.buffer_raw) (by rw [consistent_withCache]; exact hc)
  refine ⟨s', ?_, by rw [hlog]; rfl, by rw [hdata]; rfl, by rw [hcache],
    by rw [hlim], hcons⟩
  unfold RawCommandBuffer.bind_index_buffer
  simp only []
  rw [hpush]

theorem set_blend_constants_spec_ne (s : RawCommandBuffer) (cv : ColorValue)
    (hc : s.consistent = true) (hne : s.cache.blend_color ≠ some cv) :
    ∃ s', s.set_blend_constants cv = some s' ∧
      s'.log = s.log ++ [Command.SetBlendColor cv] ∧
      s'.dataBuf = s.dataBuf ∧
      s'.cache = { s.cache with blend_color := some cv } ∧
      s'.limits = s.limits ∧
      s'.consistent = true := by
  obtain ⟨s', hpush, hlog, hdata, hcache, hlim, _, _, hcons⟩ :=
    push_cmd_spec { s with cache := { s.cache with blend_color := some cv } }
      (.SetBlendColor cv) (by rw [consistent_withCache]; exact hc)
  refine ⟨s', ?_, by rw [hlog]; rfl, by rw [hdata]; rfl, by rw [hcache],
    by rw [hlim], hcons⟩
  unfold RawCommandBuffer.set_blend_constants
  rw [if_pos hne]
  exact hpush

theorem set_blend_constants_spec_eq (s : RawCommandBuffer) (cv : ColorValue)
    (heq : s.cache.blend_color = some cv) :
    s.set_blend_constants cv = some s := by
  unfold RawCommandBuffer.set_blend_constants
  rw [if_neg (by simp [heq])]

theorem reset_rejected (s : RawCommandBuffer) (r : Bool)
    (h : s.individual_reset = false) :
    s.reset r = some (s, true) := by
  unfold RawCommandBuffer.reset
  rw [h]
  rfl

/-! ## `attributesLoop` -/

theorem attributesLoop_spec (attrs : List Nat) :
    ∀ s : RawCommandBuffer, s.consistent = true →
      ∃ s', attributesLoop s attrs = some s' ∧
        s'.log = s.log ++ attrs.map Command.BindAttribute ∧
        s'.dataBuf = s.dataBuf ∧
        s'.cache = s.cache ∧
        s'.limits = s.limits ∧
        s'.consistent = true := by
  induction attrs with
  | nil =>
      intro s hc
      exact ⟨s, rfl, by simp, rfl, rfl, rfl, hc⟩
  | cons a rest ih =>
      intro s hc
      obtain ⟨s1, hpush, hlog1, hdata1, hcache1, hlim1, _, _, hcons1⟩ :=
        push_cmd_spec s (.BindAttribute a) hc
      obtain ⟨s', hloop, hlog', hdata', hcache', hlim', hcons'⟩ := ih s1 hcons1
      refine ⟨s', ?_, ?_, by rw [hdata', hdata1], by rw [hcache', hcache1],
        by rw [hlim', hlim1], hcons'⟩
      · unfold attributesLoop
        rw [hpush]
        exact hloop
      · rw [hlog', hlog1]
        simp

/-! ## List helpers for the blend cache -/

theorem list_get?_lt {α : Type} (l : List α) (i : Nat) (h : i < l.length) :
    ∃ a, l.get? i = some a := by
  induction l generalizing i with
  | nil => simp at h
  | cons x xs ih =>
      cases i with
      | zero => exact ⟨x, rfl⟩
      | succ n => exact ih n (by simpa using h)

theorem list_get?_set_same {α : Type} (l : List α) (i : Nat) (a : α)
    (h : i < l.length) : (l.set i a).get? i = some a := by
  induction l generalizing i with
  | nil => simp at h
  | cons x xs ih =>
      cases i with
      | zero => rfl
      | succ n => exact ih n (by simpa using h)

theorem list_get?_set_other {α : Type} (l : List α) (i j : Nat) (a : α)
    (h : i ≠ j) : (l.set i a).get? j = l.get? j := by
  induction l generalizing i j with
  | nil => rfl
  | cons x xs ih =>
      cases i with
      | zero =>
          cases j with
          | zero => exact absurd rfl h
          | succ m => rfl
      | succ n =>
          cases j with
          | zero => rfl
          | succ m => exact ih n m (by omega)

theorem list_set_of_get? {α : Type} (l : List α) (i : Nat) (a : α)
    (h : l.get? i = some a) : l.set i a = l := by
  induction l generalizing i with
  | nil => rfl
  | cons x xs ih =>
      cases i with
      | zero =>
          simp only [List.get?] at h
          cases h
          rfl
      | succ n =>
          simp only [List.get?] at h
          simp [List.set, ih n h]

/-! ## `setAll` and `emittedBlend` -/

theorem setAll_length (bts : List Nat) :
    ∀ (l : List (Option Nat)) (slot : Nat),
      (setAll l slot bts).length = l.length := by
  induction bts with
  | nil => intro l slot; rfl
  | cons bt rest ih =>
      intro l slot
      show (setAll (l.set slot (some bt)) (slot + 1) rest).length = l.length
      rw [ih, List.length_set]

theorem setAll_get?_out (bts : List Nat) :
    ∀ (l : List (Option Nat)) (slot j : Nat),
      (j < slot ∨ slot + bts.length ≤ j) →
      (setAll l slot bts).get? j = l.get? j := by
  induction bts with
  | nil => intro l slot j _; rfl
  | cons bt rest ih =>
      intro l slot j hj
      show (setAll (l.set slot (some bt)) (slot + 1) rest).get? j = l.get? j
      rw [ih _ (slot + 1) j (by simp at hj; omega)]
      exact list_get?_set_other l slot j (some bt) (by simp at hj; omega)

theorem setAll_get?_in (bts : List Nat) :
    ∀ (l : List (Option Nat)) (slot i : Nat) (d : Nat),
      bts.get? i = some d →
      slot + bts.length ≤ l.length →
      (setAll l slot bts).get? (slot + i) = some (some d) := by
  induction bts with
  | nil => intro l slot i d hd _; simp [List.get?] at hd
  | cons bt rest ih =>
      intro l slot i d hd hlen
      cases i with
      | zero =>
          simp only [List.get?] at hd
          cases hd
          show (setAll (l.set slot (some bt)) (slot + 1) rest).get? slot = some (some bt)
          rw [setAll_get?_out rest (l.set slot (some bt)) (slot + 1) slot (Or.inl (by omega))]
          exact list_get?_set_same l slot (some bt) (by simp at hlen; omega)
      | succ n =>
          simp only [List.get?] at hd
          show (setAll (l.set slot (some bt)) (slot + 1) rest).get? (slot + (n + 1)) = _
          have : slot + (n + 1) = (slot + 1) + n := by omega
          rw [this, ih (l.set slot (some bt)) (slot + 1) n d hd
            (by rw [List.length_set]; simp at hlen; omega)]

theorem emittedBlend_noop (bts : List Nat) :
    ∀ (l : List (Option Nat)) (slot : Nat),
      (∀ i d, bts.get? i = some d → l.get? (slot + i) = some (some d)) →
      emittedBlend l slot bts = [] := by
  induction bts with
  | nil => intro l slot _; rfl
  | cons bt rest ih =>
      intro l slot h
      have h0 : l.get? slot = some (some bt) := by
        have := h 0 bt rfl
        rwa [Nat.add_zero] at this
      unfold emittedBlend
      rw [h0]
      simp only [bne_self_eq_false, if_neg, Bool.false_eq_true, not_false_eq_true,
        if_false, List.nil_append]
      exact ih l (slot + 1) (fun i d hd => by
        have := h (i + 1) d (by simpa using hd)
        rwa [show slot + (i + 1) = slot + 1 + i by omega] at this)

/-! ## `blendLoop` and `update_blend_targets` -/

theorem blendLoop_spec (bts : List Nat) :
    ∀ (s : RawCommandBuffer) (slot : Nat) (l : List (Option Nat)),
      s.consistent = true →
      s.cache.blend_targets = some l →
      slot + bts.length ≤ l.length →
      ∃ s', blendLoop s slot bts = some s' ∧
        s'.log = s.log ++ emittedBlend l slot bts ∧
        s'.dataBuf = s.dataBuf ∧
        s'.cache = { s.cache with blend_targets := some (setAll l slot bts) } ∧
        s'.limits = s.limits ∧
        s'.consistent = true := by
  induction bts with
  | nil =>
      intro s slot l hc hbt _
      refine ⟨s, rfl, by simp [emittedBlend], rfl, ?_, rfl, hc⟩
      show s.cache = _
      rw [show setAll l slot [] = l from rfl, ← hbt]
  | cons bt rest ih =>
      intro s slot l hc hbt hlen
      have hslot : slot < l.length := by simp at hlen; omega
      obtain ⟨e, hget⟩ := list_get?_lt l slot hslot
      cases e with
      | none =>
          obtain ⟨s2, hpush, hlog2, hdata2, hcache2, hlim2, _, _, hcons2⟩ :=
            push_cmd_spec
              { s with cache := { s.cache with blend_targets := some (l.set slot (some bt)) } }
              (.BindBlendSlot slot bt) (by rw [consistent_withCache]; exact hc)
          obtain ⟨s', hloop, hlog', hdata', hcache', hlim', hcons'⟩ :=
            ih s2 (slot + 1) (l.set slot (some bt)) hcons2
              (by rw [hcache2]) (by rw [List.length_set]; simp at hlen; omega)
          have hem : emittedBlend l slot (bt :: rest) =
              Command.BindBlendSlot slot bt ::
                emittedBlend (l.set slot (some bt)) (slot + 1) rest := by
            simp only [emittedBlend]
            rw [hget]
            simp
          refine ⟨s', ?_, ?_, ?_, ?_, ?_, hcons'⟩
          · unfold blendLoop
            rw [hbt]
            simp only []
            rw [hget]
            simp only [if_true]
            rw [hpush]
            exact hloop
          · rw [hlog', hlog2, hem]
            simp [List.append_assoc]
          · rw [hdata', hdata2]
            rfl
          · rw [hcache', hcache2]
            rfl
          · rw [hlim', hlim2]
      | some c =>
          by_cases hcbt : c = bt
          · subst hcbt
            obtain ⟨s', hloop, hlog', hdata', hcache', hlim', hcons'⟩ :=
              ih s (slot + 1) l hc hbt (by simp at hlen; omega)
            have hem : emittedBlend l slot (c :: rest) =
                emittedBlend l (slot + 1) rest := by
              simp only [emittedBlend]
              rw [hget]
              simp
            have hset : setAll l slot (c :: rest) = setAll l (slot + 1) rest := by
              show setAll (l.set slot (some c)) (slot + 1) rest = _
              rw [list_set_of_get? l slot (some c) hget]
            refine ⟨s', ?_, by rw [hlog', hem], hdata', ?_, hlim', hcons'⟩
            · unfold blendLoop
              rw [hbt]
              simp only []
              rw [hget]
              simp only [bne_self_eq_false, Bool.false_eq_true, if_false]
              exact hloop
            · rw [hcache', hset]
          · have hdif : (c != bt) = true := bne_iff_ne.mpr hcbt
            obtain ⟨s2, hpush, hlog2, hdata2, hcache2, hlim2, _, _, hcons2⟩ :=
              push_cmd_spec
                { s with cache := { s.cache with blend_targets := some (l.set slot (some bt)) } }
                (.BindBlendSlot slot bt) (by rw [consistent_withCache]; exact hc)
            obtain ⟨s', hloop, hlog', hdata', hcache', hlim', hcons'⟩ :=
              ih s2 (slot + 1) (l.set slot (some bt)) hcons2
                (by rw [hcache2]) (by rw [List.length_set]; simp at hlen; omega)
            have hem : emittedBlend l slot (bt :: rest) =
                Command.BindBlendSlot slot bt ::
                  emittedBlend (l.set slot (some bt)) (slot + 1) rest := by
              simp only [emittedBlend]
              rw [hget]
              simp [hdif]
            refine ⟨s', ?_, ?_, ?_, ?_, ?_, hcons'⟩
            · unfold blendLoop
              rw [hbt]
              simp only []
              rw [hget]
              simp only [hdif, if_true]
              rw [hpush]
              exact hloop
            · rw [hlog', hlog2, hem]
              simp [List.append_assoc]
            · rw [hdata', hdata2]
              rfl
            · rw [hcache', hcache2]
              rfl
            · rw [hlim', hlim2]

theorem blendLoop_noop (bts : List Nat) :
    ∀ (s : RawCommandBuffer) (l : List (Option Nat)) (slot : Nat),
      s.cache.blend_targets = some l →
      (∀ i d, bts.get? i = some d → l.get? (slot + i) = some (some d)) →
      blendLoop s slot bts = some s := by
  induction bts with
  | nil => intro s l slot _ _; rfl
  | cons bt rest ih =>
      intro s l slot hbt h
      have h0 : l.get? slot = some (some bt) := by
        have := h 0 bt rfl
        rwa [Nat.add_zero] at this
      unfold blendLoop
      rw [hbt]
      simp only []
      rw [h0]
      simp only [bne_self_eq_false, Bool.false_eq_true, if_false]
      exact ih s l (slot + 1) hbt (fun i d hd => by
        have := h (i + 1) d (by simpa using hd)
        rwa [show slot + (i + 1) = slot + 1 + i by omega] at this)

theorem growBlendCache_pos (o : Option (List (Option Nat))) (n : Nat)
    (hn : 0 < n) :
    ∃ l, growBlendCache o n = some l ∧ n ≤ l.length ∧
      (∀ j, n ≤ j → flat2 (l.get? j) = flat2 ((o.getD []).get? j)) := by
  cases o with
  | none =>
      refine ⟨List.replicate n none, ?_, by simp, ?_⟩
      · unfold growBlendCache
        rw [if_pos hn]
      · intro j hj
        rw [List.get?_eq_none.mpr (by simp; omega), List.get?_eq_none.mpr (by simp)]
  | some cached =>
      by_cases h : cached.length < n
      · refine ⟨cached ++ List.replicate (n - cached.length) none, ?_, by simp; omega, ?_⟩
        · unfold growBlendCache
          rw [if_pos hn]
          simp only []
          rw [if_pos h]
        · intro j hj
          rw [List.get?_eq_none.mpr (by simp; omega),
            List.get?_eq_none.mpr (by simp; omega)]
      · refine ⟨cached, ?_, by omega, fun j hj => rfl⟩
        unfold growBlendCache
        rw [if_pos hn]
        simp only []
        rw [if_neg h]

theorem update_blend_targets_spec (s : RawCommandBuffer) (bts : List Nat)
    (hc : s.consistent = true) :
    ∃ s', s.update_blend_targets bts = some s' ∧
      s'.log = s.log ++ blendEmits s.cache.blend_targets bts ∧
      s'.dataBuf = s.dataBuf ∧
      s'.cache = updatedBlendCache s.cache bts ∧
      s'.limits = s.limits ∧
      s'.consistent = true := by
  cases bts with
  | nil =>
      refine ⟨s, ?_, ?_, rfl, ?_, rfl, hc⟩
      · show blendLoop _ 0 [] = some s
        rfl
      · simp [blendEmits, emittedBlend]
      · show s.cache = updatedBlendCache s.cache []
        cases ho : s.cache.blend_targets <;>
          simp [updatedBlendCache, growBlendCache, setAll, ho] <;>
          rw [← ho]
  | cons bt rest =>
      obtain ⟨l, hgrow, hlen, _⟩ :=
        growBlendCache_pos s.cache.blend_targets (bt :: rest).length (by simp)
      obtain ⟨s', hloop, hlog', hdata', hcache', hlim', hcons'⟩ :=
        blendLoop_spec (bt :: rest)
          { s with cache := { s.cache with blend_targets := some l } } 0 l
          (by rw [consistent_withCache]; exact hc) (by simp) (by omega)
      refine ⟨s', ?_, ?_, by rw [hdata']; rfl, ?_, by rw [hlim'], hcons'⟩
      · unfold RawCommandBuffer.update_blend_targets
        rw [hgrow]
        exact hloop
      · rw [hlog', log_withCache]
        unfold blendEmits
        rw [hgrow]
        rfl
      · rw [hcache']
        unfold updatedBlendCache
        rw [hgrow]
        rfl

theorem update_blend_targets_stable (s : RawCommandBuffer) (bts : List Nat)
    (L : List (Option Nat))
    (hbt : s.cache.blend_targets = some L)
    (hlen : bts.length ≤ L.length)
    (hget : ∀ i d, bts.get? i = some d → L.get? i = some (some d)) :
    s.update_blend_targets bts = some s := by
  have hgrow : growBlendCache s.cache.blend_targets bts.length =
      s.cache.blend_targets := by
    rw [hbt]
    unfold growBlendCache
    by_cases hn : 0 < bts.length
    · rw [if_pos hn]
      simp only []
      rw [if_neg (by omega)]
    · rw [if_neg hn]
  unfold RawCommandBuffer.update_blend_targets
  rw [hgrow]
  exact blendLoop_noop bts s L 0 hbt (fun i d hd => by simpa using hget i d hd)

/-! ## `bind_graphics_pipeline` -/

theorem bindPrimitiveStage_spec (s : RawCommandBuffer) (p : GraphicsPipeline) :
    (bindPrimitiveStage s p).cache = { s.cache with primitive := some p.primitive } ∧
    (bindPrimitiveStage s p).log = s.log ∧
    (bindPrimitiveStage s p).dataBuf = s.dataBuf ∧
    (bindPrimitiveStage s p).limits = s.limits ∧
    (bindPrimitiveStage s p).consistent = s.consistent := by
  unfold bindPrimitiveStage
  by_cases h : s.cache.primitive = some p.primitive
  · rw [if_neg (by simp [h])]
    exact ⟨by rw [← h], rfl, rfl, rfl, rfl⟩
  · rw [if_pos h]
    exact ⟨rfl, by rw [log_withCache], by rw [dataBuf_withCache],
      rfl, by rw [consistent_withCache]⟩

theorem bindPatchStage_spec (s : RawCommandBuffer) (p : GraphicsPipeline)
    (hc : s.consistent = true) :
    ∃ u, bindPatchStage s p = some u ∧
      u.log = s.log ++ patchEmits s.cache p ∧
      u.dataBuf = s.dataBuf ∧
      u.cache = { s.cache with patch_size := p.patch_size } ∧
      u.limits = s.limits ∧
      u.consistent = true := by
  by_cases h : s.cache.patch_size = p.patch_size
  · refine ⟨s, ?_, ?_, rfl, ?_, rfl, hc⟩
    · unfold bindPatchStage
      rw [if_neg (by simp [h])]
    · rw [show patchEmits s.cache p = [] from by simp [patchEmits, h]]
      simp
    · rw [← h]
  · cases hp : p.patch_size with
    | some sz =>
        rw [hp] at h
        obtain ⟨u, hpush, hlog, hdata, hcache, hlim, _, _, hcons⟩ :=
          push_cmd_spec { s with cache := { s.cache with patch_size := some sz } }
            (.SetPatchSize sz) (by rw [consistent_withCache]; exact hc)
        refine ⟨u, ?_, ?_, by rw [hdata]; try rfl, by rw [hcache]; try rfl,
          by rw [hlim]; try rfl, hcons⟩
        · unfold bindPatchStage
          rw [hp, if_pos h]
          exact hpush
        · rw [hlog, log_withCache,
            show patchEmits s.cache p = [Command.SetPatchSize sz] from by
              simp [patchEmits, h, hp]]
    | none =>
        rw [hp] at h
        refine ⟨{ s with cache := { s.cache with patch_size := none } },
          ?_, ?_, by rw [dataBuf_withCache], rfl, rfl,
          by rw [consistent_withCache]; exact hc⟩
        · unfold bindPatchStage
          rw [hp, if_pos h]
        · rw [log_withCache,
            show patchEmits s.cache p = [] from by simp [patchEmits, h, hp]]
          simp

theorem bindProgramStage_spec (s : RawCommandBuffer) (p : GraphicsPipeline)
    (hc : s.consistent = true) :
    ∃ u, bindProgramStage s p = some u ∧
      u.log = s.log ++ progEmits s.cache p ∧
      u.dataBuf = s.dataBuf ∧
      u.cache = { s.cache with program := some p.program } ∧
      u.limits = s.limits ∧
      u.consistent = true := by
  by_cases h : s.cache.program = some p.program
  · refine ⟨s, ?_, ?_, rfl, ?_, rfl, hc⟩
    · unfold bindProgramStage
      rw [if_neg (by simp [h])]
    · rw [show progEmits s.cache p = [] from by simp [progEmits, h]]
      simp
    · rw [← h]
  · obtain ⟨u, hpush, hlog, hdata, hcache, hlim, _, _, hcons⟩ :=
      push_cmd_spec { s with cache := { s.cache with program := some p.program } }
        (.BindProgram p.program) (by rw [consistent_withCache]; exact hc)
    refine ⟨u, ?_, ?_, by rw [hdata]; try rfl, by rw [hcache]; try rfl,
      by rw [hlim]; try rfl, hcons⟩
    · unfold bindProgramStage
      rw [if_pos h]
      exact hpush
    · rw [hlog, log_withCache,
        show progEmits s.cache p = [Command.BindProgram p.program] from by
          simp [progEmits, h]]

theorem bind_graphics_pipeline_spec (s : RawCommandBuffer)
    (p : GraphicsPipeline) (hc : s.consistent = true) :
    ∃ s', s.bind_graphics_pipeline p = some s' ∧
      s'.log = s.log ++ bindEmits s.cache p ∧
      s'.dataBuf = s.dataBuf ∧
      s'.cache = bindCache s.cache p ∧
      s'.limits = s.limits ∧
      s'.consistent = true := by
  obtain ⟨h1cache, h1log, h1data, h1lim, h1cons⟩ := bindPrimitiveStage_spec s p
  obtain ⟨s2, h2, h2log, h2data, h2cache, h2lim, h2cons⟩ :=
    bindPatchStage_spec (bindPrimitiveStage s p) p (by rw [h1cons]; exact hc)
  obtain ⟨s3, h3, h3log, h3data, h3cache, h3lim, h3cons⟩ :=
    bindProgramStage_spec s2 p h2cons
  obtain ⟨s4, h4, h4log, h4data, h4cache, h4lim, h4cons⟩ :=
    attributesLoop_spec p.attributes s3 h3cons
  have h4bt : s4.cache.blend_targets = s.cache.blend_targets := by
    rw [h4cache, h3cache, h2cache, h1cache]
  obtain ⟨s5, h5, h5log, h5data, h5cache, h5lim, h5cons⟩ :=
    update_blend_targets_spec s4 p.blend_targets h4cons
  refine ⟨s5, ?_, ?_, ?_, ?_, ?_, h5cons⟩
  · unfold RawCommandBuffer.bind_graphics_pipeline
    rw [h2]
    simp only []
    rw [h3]
    simp only []
    rw [h4]
    simp only []
    exact h5
  · rw [h5log, h4log, h3log, h2log, h1log, h4bt]
    have hpe : patchEmits (bindPrimitiveStage s p).cache p = patchEmits s.cache p := by
      rw [h1cache]
      simp [patchEmits]
    have hpr : progEmits s2.cache p = progEmits s.cache p := by
      rw [h2cache, h1cache]
      simp [progEmits]
    rw [hpe, hpr]
    unfold bindEmits blendEmits
    simp [List.append_assoc]
  · rw [h5data, h4data, h3data, h2data, h1data]
  · rw [h5cache, h4cache, h3cache, h2cache, h1cache]
    unfold bindCache updatedBlendCache
    rfl
  · rw [h5lim, h4lim, h3lim, h2lim, h1lim]

/-! ## Filter and count lemmas over emitted command lists -/

theorem countCmd_append (f : Command → Bool) (a b : List Command) :
    countCmd f (a ++ b) = countCmd f a + countCmd f b := by
  simp [countCmd, List.filter_append]

theorem filter_emittedBlend (f : Command → Bool)
    (hf : ∀ slot d, f (Command.BindBlendSlot slot d) = false) (bts : List Nat) :
    ∀ (l : List (Option Nat)) (slot : Nat),
      (emittedBlend l slot bts).filter f = [] := by
  induction bts with
  | nil => intro l slot; rfl
  | cons bt rest ih =>
      intro l slot
      unfold emittedBlend
      simp only [List.filter_append]
      rw [ih]
      split <;> simp [hf]

theorem filter_attrs_self (attrs : List Nat) :
    (attrs.map Command.BindAttribute).filter isBindAttribute =
      attrs.map Command.BindAttribute := by
  induction attrs with
  | nil => rfl
  | cons a rest ih => simp [isBindAttribute, ih]

theorem filter_attrs_none (f : Command → Bool)
    (hf : ∀ a, f (Command.BindAttribute a) = false) (attrs : List Nat) :
    (attrs.map Command.BindAttribute).filter f = [] := by
  induction attrs with
  | nil => rfl
  | cons a rest ih => simp [hf, ih]

theorem filter_patchEmits (f : Command → Bool)
    (hf : ∀ sz, f (Command.SetPatchSize sz) = false)
    (c : Cache) (p : GraphicsPipeline) : (patchEmits c p).filter f = [] := by
  unfold patchEmits
  split
  · split <;> simp [hf]
  · rfl

theorem filter_progEmits (f : Command → Bool)
    (hf : ∀ pr, f (Command.BindProgram pr) = false)
    (c : Cache) (p : GraphicsPipeline) : (progEmits c p).filter f = [] := by
  unfold progEmits
  split <;> simp [hf]

theorem filter_bindEmits_attr (c : Cache) (p : GraphicsPipeline) :
    (bindEmits c p).filter isBindAttribute = p.attributes.map Command.BindAttribute := by
  unfold bindEmits blendEmits
  simp only [List.filter_append]
  rw [filter_patchEmits isBindAttribute (fun _ => rfl),
    filter_progEmits isBindAttribute (fun _ => rfl),
    filter_attrs_self,
    filter_emittedBlend isBindAttribute (fun _ _ => rfl)]
  simp

theorem filter_bindEmits_prog (c : Cache) (p : GraphicsPipeline) :
    (bindEmits c p).filter isBindProgram = progEmits c p := by
  unfold bindEmits blendEmits
  simp only [List.filter_append]
  rw [filter_patchEmits isBindProgram (fun _ => rfl),
    filter_attrs_none isBindProgram (fun _ => rfl),
    filter_emittedBlend isBindProgram (fun _ _ => rfl)]
  have : (progEmits c p).filter isBindProgram = progEmits c p := by
    unfold progEmits
    split <;> simp [isBindProgram]
  simp [this]

theorem filter_bindEmits_patch (c : Cache) (p : GraphicsPipeline) :
    (bindEmits c p).filter isSetPatchSize = patchEmits c p := by
  unfold bindEmits blendEmits
  simp only [List.filter_append]
  rw [filter_progEmits isSetPatchSize (fun _ => rfl),
    filter_attrs_none isSetPatchSize (fun _ => rfl),
    filter_emittedBlend isSetPatchSize (fun _ _ => rfl)]
  have : (patchEmits c p).filter isSetPatchSize = patchEmits c p := by
    unfold patchEmits
    split
    · split <;> simp [isSetPatchSize]
    · rfl
  simp [this]

theorem filter_emittedBlend_self (bts : List Nat) :
    ∀ (l : List (Option Nat)) (slot : Nat),
      (emittedBlend l slot bts).filter isBindBlendSlot = emittedBlend l slot bts := by
  induction bts with
  | nil => intro l slot; rfl
  | cons bt rest ih =>
      intro l slot
      simp only [emittedBlend, List.filter_append]
      rw [ih]
      split <;> simp [isBindBlendSlot]

theorem filter_bindEmits_blendslot (c : Cache) (p : GraphicsPipeline) :
    (bindEmits c p).filter isBindBlendSlot =
      blendEmits c.blend_targets p.blend_targets := by
  unfold bindEmits
  simp only [List.filter_append]
  rw [filter_patchEmits isBindBlendSlot (fun _ => rfl),
    filter_progEmits isBindBlendSlot (fun _ => rfl),
    filter_attrs_none isBindBlendSlot (fun _ => rfl)]
  have h : (blendEmits c.blend_targets p.blend_targets).filter isBindBlendSlot =
      blendEmits c.blend_targets p.blend_targets := by
    unfold blendEmits
    rw [filter_emittedBlend_self]
  simp [h]

/-! ## Claim theorems -/

/-- Claim C6: `BufferSlice.append` leaves the other slice when the receiver
is empty, grows the size by the appended size when the slices are
contiguous, fails on a non-contiguous append to a non-empty slice, and is
associative on three pairwise in-order contiguous slices, producing the
single covering slice. -/
theorem c6_slice_append_algebra (a b c : BufferSlice) :
    (a.size = 0 → a.append b = some b) ∧
    (a.size ≠ 0 → a.offset + a.size = b.offset →
      a.append b = some ⟨a.offset, a.size + b.size⟩) ∧
    (a.size ≠ 0 → a.offset + a.size ≠ b.offset → a.append b = none) ∧
    (a.offset + a.size = b.offset → b.offset + b.size = c.offset →
      ((a.append b).bind (fun x => x.append c) =
          (b.append c).bind (fun y => a.append y) ∧
        (a.append b).bind (fun x => x.append c) =
          some ⟨a.offset, a.size + b.size + c.size⟩)) := by
  have key : ∀ x y u w : Nat, x + y = u →
      BufferSlice.append ⟨x, y⟩ ⟨u, w⟩ = some ⟨x, y + w⟩ := by
    intro x y u w hxy
    unfold BufferSlice.append
    simp only []
    by_cases hy : y = 0
    · rw [if_pos hy]
      simp only [Option.some.injEq, BufferSlice.mk.injEq]
      omega
    · rw [if_neg hy, if_pos hxy]
  obtain ⟨ao, asz⟩ := a
  obtain ⟨bo, bsz⟩ := b
  obtain ⟨co, csz⟩ := c
  refine ⟨?_, ?_, ?_, ?_⟩
  · intro h
    unfold BufferSlice.append
    simp only []
    rw [if_pos h]
  · intro h1 h2
    unfold BufferSlice.append
    simp only []
    rw [if_neg h1, if_pos h2]
  · intro h1 h2
    unfold BufferSlice.append
    simp only []
    rw [if_neg h1, if_neg h2]
  · intro hab hbc
    simp only [] at hab hbc
    have e1 := key ao asz bo bsz hab
    have e2 := key bo bsz co csz hbc
    have e3 := key ao (asz + bsz) co csz (by omega)
    have e4 := key ao asz bo (bsz + csz) hab
    rw [e1, e2]
    simp only [Option.some_bind]
    rw [e3, e4]
    constructor
    · simp only [Option.some.injEq, BufferSlice.mk.injEq]
      exact ⟨trivial, by omega⟩
    · simp

/-- Closed instances of C6's four parts at concrete slices. -/
theorem c6_witness :
    (BufferSlice.append ⟨7, 0⟩ ⟨3, 5⟩ = some ⟨3, 5⟩) ∧
    (BufferSlice.append ⟨0, 4⟩ ⟨4, 3⟩ = some ⟨0, 7⟩) ∧
    (BufferSlice.append ⟨0, 4⟩ ⟨6, 3⟩ = none) ∧
    ((BufferSlice.append ⟨0, 4⟩ ⟨4, 3⟩).bind (fun x => x.append ⟨7, 2⟩) =
      some ⟨0, 9⟩) :=
  ⟨(c6_slice_append_algebra ⟨7, 0⟩ ⟨3, 5⟩ ⟨0, 0⟩).1 rfl,
   (c6_slice_append_algebra ⟨0, 4⟩ ⟨4, 3⟩ ⟨0, 0⟩).2.1 (by decide) (by decide),
   (c6_slice_append_algebra ⟨0, 4⟩ ⟨6, 3⟩ ⟨0, 0⟩).2.2.1 (by decide) (by decide),
   ((c6_slice_append_algebra ⟨0, 4⟩ ⟨4, 3⟩ ⟨7, 2⟩).2.2.2 (by decide) (by decide)).2⟩

/-- Claim C7: `reset` on a recorder that is not individually resettable
(Linear-backed pool) is rejected (the returned flag reports the `error!`
diagnostic and early return) and modifies nothing: neither the coverage
slice, nor the state cache, nor the pool's log/data storage. -/
theorem c7_reset_non_individual_rejected (s : RawCommandBuffer) (r : Bool)
    (h : s.individual_reset = false) :
    s.reset r = some (s, true) :=
  reset_rejected s r h

/-- Closed instance of C7 on a fresh Linear-backed recorder. -/
theorem c7_witness :
    (linearInit 4).individual_reset = false ∧
    (linearInit 4).reset true = some (linearInit 4, true) :=
  ⟨rfl, c7_reset_non_individual_rejected (linearInit 4) true rfl⟩

/-- Claim C3: with a cached index type and topology, `draw_indexed` maps a
16-bit index type to element width 2 and a 32-bit index type to width 4,
and appends exactly one indexed-draw command with `index_buffer_offset =
indices.start * width`, `index_count = indices.end - indices.start` and the
given base vertex, leaving the cache unchanged. -/
theorem c3_draw_indexed_fields (s : RawCommandBuffer) (ity : IndexType)
    (prim : GLenum) (istart iend : Nat) (bv : Int) (inst : URange)
    (hc : s.consistent = true)
    (hi : s.cache.index_type = some ity)
    (hp : s.cache.primitive = some prim)
    (hst : istart * ity.width < U32MOD)
    (hle : istart ≤ iend) (hend : iend < U32MOD) :
    IndexType.u16.width = 2 ∧ IndexType.u32.width = 4 ∧
    ∃ s', s.draw_indexed ⟨istart, iend⟩ bv inst = some s' ∧
      s'.log = s.log ++ [Command.DrawIndexed prim ity.glType (iend - istart)
        (istart * ity.width) bv inst] ∧
      s'.cache = s.cache := by
  obtain ⟨s', h1, h2, _, h4, _⟩ :=
    draw_indexed_spec s ity prim istart iend bv inst hc hi hp hst hle hend
  exact ⟨rfl, rfl, s', h1, h2, h4⟩

/-- Closed instance of C3: 16-bit indices, range 10..20, base vertex 3
give one indexed-draw command with index_count 10, index_buffer_offset 20,
base_vertex 3. -/
theorem c3_witness :
    ∃ s', boundState.draw_indexed ⟨10, 20⟩ 3 ⟨0, 1⟩ = some s' ∧
      s'.log = boundState.log ++
        [Command.DrawIndexed 4 GL_UNSIGNED_SHORT 10 20 3 ⟨0, 1⟩] ∧
      s'.cache = boundState.cache :=
  (c3_draw_indexed_fields boundState .u16 4 10 20 3 ⟨0, 1⟩ (by decide) rfl rfl
    (by decide) (by decide) (by decide)).2.2

/-- Claim C10: `bind_index_buffer` caches the index type and appends
exactly one bind-index-buffer command carrying only the raw handle; the
view's byte offset is dropped (its only effect is the warning flag), the
resulting state is identical for every offset, and a subsequent
`draw_indexed` computes `index_buffer_offset` from `indices.start` alone. -/
theorem c10_bind_index_buffer_offset_dropped (s : RawCommandBuffer)
    (br off : Nat) (t : IndexType) (hc : s.consistent = true) :
    ∃ s', s.bind_index_buffer ⟨br, off, t⟩ = some (s', decide (off > 0)) ∧
      s'.log = s.log ++ [Command.BindIndexBuffer br] ∧
      s'.cache.index_type = some t ∧
      s'.dataBuf = s.dataBuf ∧
      (∀ off2, s.bind_index_buffer ⟨br, off2, t⟩ = some (s', decide (off2 > 0))) ∧
      (∀ prim istart iend bv inst, s'.cache.primitive = some prim →
        istart * t.width < U32MOD → istart ≤ iend → iend < U32MOD →
        ∃ u, s'.draw_indexed ⟨istart, iend⟩ bv inst = some u ∧
          u.log = s'.log ++ [Command.DrawIndexed prim t.glType (iend - istart)
            (istart * t.width) bv inst]) := by
  obtain ⟨s', hpush, hlog, hdata, hcache, hlim, _, _, hcons⟩ :=
    push_cmd_spec { s with cache := { s.cache with index_type := some t } }
      (.BindIndexBuffer br) (by rw [consistent_withCache]; exact hc)
  have hbind : ∀ off2 : Nat,
      s.bind_index_buffer ⟨br, off2, t⟩ = some (s', decide (off2 > 0)) := by
    intro off2
    unfold RawCommandBuffer.bind_index_buffer
    simp only []
    rw [hpush]
  refine ⟨s', hbind off, by rw [hlog]; rfl, by rw [hcache], by rw [hdata]; rfl,
    hbind, ?_⟩
  intro prim istart iend bv inst hprim hst hle hend
  obtain ⟨u, hu, hulog, _, _, _⟩ :=
    draw_indexed_spec s' t prim istart iend bv inst hcons (by rw [hcache])
      hprim hst hle hend
  exact ⟨u, hu, hulog⟩

/-- Closed instance of C10 with a non-zero byte offset of 7. -/
theorem c10_witness :
    ∃ s', (linearInit 16).bind_index_buffer ⟨5, 7, IndexType.u16⟩ = some (s', true) ∧
      s'.log = (linearInit 16).log ++ [Command.BindIndexBuffer 5] ∧
      s'.cache.index_type = some IndexType.u16 ∧
      s'.dataBuf = (linearInit 16).dataBuf ∧
      (∀ off2, (linearInit 16).bind_index_buffer ⟨5, off2, IndexType.u16⟩ =
        some (s', decide (off2 > 0))) ∧
      (∀ prim istart iend bv inst, s'.cache.primitive = some prim →
        istart * IndexType.u16.width < U32MOD → istart ≤ iend → iend < U32MOD →
        ∃ u, s'.draw_indexed ⟨istart, iend⟩ bv inst = some u ∧
          u.log = s'.log ++ [Command.DrawIndexed prim IndexType.u16.glType
            (iend - istart) (istart * IndexType.u16.width) bv inst]) :=
  c10_bind_index_buffer_offset_dropped (linearInit 16) 5 7 IndexType.u16 (by decide)

theorem scissorData_length (rs : List Rect) :
    (scissorData rs).length = 16 * rs.length := by
  induction rs with
  | nil => rfl
  | cons r rest ih =>
      simp only [scissorData, List.length_append, List.length_cons, ih,
        length_scissorBytes]
      ring

/-- Claim C1 (amended): for a single viewport within the limit,
`set_viewports` serializes the rectangle as four 32-bit floats (16 bytes)
and the depth range as two 64-bit floats (16 bytes) into the data buffer
and appends exactly one set-viewports command whose two payload slices
have byte sizes 16·n and 16·n (n = 1), not 4·n and 2·n; with two or more
viewports the interleaving of rect and depth payloads makes the second
rect slice non-contiguous with the running rect coverage slice, violating
the slice-append contract: the call panics (modelled as `none`). -/
theorem c1_set_viewports_amended (s : RawCommandBuffer) (b : OwnedBuffer)
    (v v1 v2 : Viewport) (rest : List Viewport)
    (hg : s.getBuffer = some b) :
    (s.consistent = true → 1 ≤ s.limits.max_viewports →
      ∃ s', s.set_viewports [v] = some s' ∧
        s'.log = s.log ++ [Command.SetViewports ⟨b.data.length, 16⟩
          ⟨b.data.length + 16, 16⟩] ∧
        s'.dataBuf = s.dataBuf ++ viewportData [v] ∧
        (viewportData [v]).length = 32 ∧
        s'.cache = s.cache) ∧
    s.set_viewports (v1 :: v2 :: rest) = none := by
  constructor
  · intro hc hmax
    obtain ⟨s', h1, h2, h3, h4, _, _⟩ := set_viewports_single_within s b v hg hc hmax
    exact ⟨s', h1, h2, h3, by simp [viewportData], h4⟩
  · exact set_viewports_multi_none s b v1 v2 rest hg

/-- Counterexample to C1 as stated: with limit 16 a two-viewport call
(2 ≤ 16) appends no command at all but panics, and even at n = 1 the two
slice sizes are 16 and 16 bytes, not 4·1 and 2·1. -/
theorem c1_counterexample :
    (linearInit 16).limits.max_viewports = 16 ∧
    (linearInit 16).set_viewports [vpA, vpB] = none ∧
    ((linearInit 16).set_viewports [vpC]).map RawCommandBuffer.log =
      some [Command.SetViewports ⟨0, 16⟩ ⟨16, 16⟩] ∧
    ¬((16 : Nat) = 4 * 1 ∧ (16 : Nat) = 2 * 1) :=
  ⟨rfl, by decide, by decide, by decide⟩

/-- Closed instance of C1 (amended) on a fresh recorder with limit 16. -/
theorem c1_witness :
    (∃ s', (linearInit 16).set_viewports [vpC] = some s' ∧
      s'.log = (linearInit 16).log ++
        [Command.SetViewports ⟨0, 16⟩ ⟨16, 16⟩] ∧
      s'.dataBuf = (linearInit 16).dataBuf ++ viewportData [vpC] ∧
      (viewportData [vpC]).length = 32 ∧
      s'.cache = (linearInit 16).cache) ∧
    (linearInit 16).set_viewports [vpD, vpE] = none := by
  have h := c1_set_viewports_amended (linearInit 16) OwnedBuffer.new vpC vpD vpE [] rfl
  exact ⟨h.1 (by decide) (by decide), h.2⟩

/-- Claim C2 evaluated at the failing input: a two-viewport `set_viewports`
call exceeding the limit of 1 does not set the error flag and skip the
command — it panics in `BufferSlice::append` before validation (`none`). -/
theorem c2_overlimit_viewports_panic :
    (linearInit 1).limits.max_viewports = 1 ∧
    ([vpA, vpC] : List Viewport).length = 2 ∧
    (linearInit 1).set_viewports [vpA, vpC] = none :=
  ⟨rfl, rfl, by decide⟩

/-- Counterexample to C8 as stated: the over-limit `set_viewports` path
with two entries panics instead of setting the error flag and keeping the
data-buffer bytes. -/
theorem c8_counterexample :
    (linearInit 1).limits.max_viewports = 1 ∧
    (linearInit 1).set_viewports [vpB, vpE] = none :=
  ⟨rfl, by decide⟩

/-- Claim C8 (amended): on `set_scissors`'s over-limit error path the 16
payload bytes per rect are already in the data buffer when validation
sets the error flag and appends no command; `set_viewports` behaves the
same on its only reachable over-limit path (a single 32-byte entry over a
zero limit); with two or more viewports the call instead panics on the
contiguity assertion before validation. -/
theorem c8_data_written_before_validation (s : RawCommandBuffer)
    (b : OwnedBuffer) (r : Rect) (rrest : List Rect) (v v1 v2 : Viewport)
    (vrest : List Viewport) (hg : s.getBuffer = some b) :
    (rrest.length + 1 > s.limits.max_viewports →
      ∃ s', s.set_scissors (r :: rrest) = some s' ∧
        s'.cache = { s.cache with error_state := true } ∧
        s'.log = s.log ∧
        s'.dataBuf = s.dataBuf ++ scissorData (r :: rrest) ∧
        (scissorData (r :: rrest)).length = 16 * (r :: rrest).length) ∧
    (s.limits.max_viewports < 1 →
      ∃ s', s.set_viewports [v] = some s' ∧
        s'.cache = { s.cache with error_state := true } ∧
        s'.log = s.log ∧
        s'.dataBuf = s.dataBuf ++ viewportData [v] ∧
        (viewportData [v]).length = 32) ∧
    s.set_viewports (v1 :: v2 :: vrest) = none := by
  refine ⟨?_, ?_, set_viewports_multi_none s b v1 v2 vrest hg⟩
  · intro hover
    obtain ⟨s', h1, h2, h3, h4, _⟩ := set_scissors_over_spec s b r rrest hg hover
    exact ⟨s', h1, h4, h2, h3, scissorData_length (r :: rrest)⟩
  · intro hover
    obtain ⟨s', h1, h2, h3, h4, _⟩ := set_viewports_single_over s b v hg hover
    exact ⟨s', h1, h4, h2, h3, by simp [viewportData]⟩

/-- Closed instance of C8 (amended) on a recorder whose limit is 0. -/
theorem c8_witness :
    (∃ s', (linearInit 0).set_scissors [scA, scB] = some s' ∧
      s'.cache = { (linearInit 0).cache with error_state := true } ∧
      s'.log = (linearInit 0).log ∧
      s'.dataBuf = (linearInit 0).dataBuf ++ scissorData [scA, scB] ∧
      (scissorData [scA, scB]).length = 16 * 2) ∧
    (∃ s', (linearInit 0).set_viewports [vpA] = some s' ∧
      s'.cache = { (linearInit 0).cache with error_state := true } ∧
      s'.log = (linearInit 0).log ∧
      s'.dataBuf = (linearInit 0).dataBuf ++ viewportData [vpA] ∧
      (viewportData [vpA]).length = 32) ∧
    (linearInit 0).set_viewports [vpC, vpB] = none := by
  have h := c8_data_written_before_validation (linearInit 0) OwnedBuffer.new
    scA [scB] vpA vpC vpB [] rfl
  exact ⟨h.1 (by decide), h.2.1 (by decide), h.2.2⟩

/-! ## Blend-cache observation lemmas (for C4) -/

theorem blendCacheGet_of_some (s : RawCommandBuffer) (l : List (Option Nat))
    (h : s.cache.blend_targets = some l) (j : Nat) :
    blendCacheGet s j = flat2 (l.get? j) := by
  unfold blendCacheGet
  rw [h]
  simp only []
  cases hj : l.get? j <;> simp [flat2]

theorem blendCacheGet_getD (s : RawCommandBuffer) (j : Nat) :
    blendCacheGet s j = flat2 ((s.cache.blend_targets.getD []).get? j) := by
  unfold blendCacheGet
  cases h : s.cache.blend_targets with
  | none => rfl
  | some l =>
      simp only [Option.getD_some]
      cases hj : l.get? j <;> simp [flat2, hj]

theorem updatedBlendCache_nil (c : Cache) : updatedBlendCache c [] = c := by
  unfold updatedBlendCache
  have h1 : growBlendCache c.blend_targets ([] : List Nat).length = c.blend_targets := by
    unfold growBlendCache
    rw [if_neg (by simp)]
  rw [h1]
  have h2 : c.blend_targets.map (fun l => setAll l 0 []) = c.blend_targets := by
    cases c.blend_targets <;> rfl
  rw [h2]

theorem update_blend_targets_nil (t : RawCommandBuffer) :
    t.update_blend_targets [] = some t := rfl

/-- Claim C4: `update_blend_targets` grows the cache to cover every
referenced slot, writes each bound descriptor into its cache slot, leaves
slots beyond the referenced range untouched, emits bind-blend-slot
commands exactly per the unknown-or-differing rule (`blendEmits`), and a
second call with the same descriptors is the identity — zero further
commands. -/
theorem c4_blend_cache_dedup (s : RawCommandBuffer) (bts : List Nat)
    (hc : s.consistent = true) :
    ∃ s', s.update_blend_targets bts = some s' ∧
      (bts ≠ [] → bts.length ≤ blendCacheLen s') ∧
      (∀ i d, bts.get? i = some d → blendCacheGet s' i = some d) ∧
      (∀ j, bts.length ≤ j → blendCacheGet s' j = blendCacheGet s j) ∧
      s'.log = s.log ++ blendEmits s.cache.blend_targets bts ∧
      s'.update_blend_targets bts = some s' := by
  obtain ⟨s', hupd, hlog, hdata, hcache, hlim, hcons⟩ :=
    update_blend_targets_spec s bts hc
  cases bts with
  | nil =>
      have hceq : s'.cache = s.cache := by rw [hcache, updatedBlendCache_nil]
      refine ⟨s', hupd, by simp, by simp [List.get?], ?_, hlog,
        update_blend_targets_nil s'⟩
      intro j _
      unfold blendCacheGet
      rw [hceq]
  | cons bt rest =>
      obtain ⟨l, hgrow, hlen, hpres⟩ :=
        growBlendCache_pos s.cache.blend_targets (bt :: rest).length (by simp)
      have hbt' : s'.cache.blend_targets = some (setAll l 0 (bt :: rest)) := by
        rw [hcache]
        unfold updatedBlendCache
        rw [hgrow]
        rfl
      have hlen' : (setAll l 0 (bt :: rest)).length = l.length :=
        setAll_length (bt :: rest) l 0
      refine ⟨s', hupd, ?_, ?_, ?_, hlog, ?_⟩
      · intro _
        unfold blendCacheLen
        rw [hbt']
        show (bt :: rest).length ≤ (setAll l 0 (bt :: rest)).length
        rw [hlen']
        exact hlen
      · intro i d hd
        rw [blendCacheGet_of_some s' _ hbt' i]
        have := setAll_get?_in (bt :: rest) l 0 i d hd (by simpa using hlen)
        rw [show (0 : Nat) + i = i by omega] at this
        rw [this]
        rfl
      · intro j hj
        rw [blendCacheGet_of_some s' _ hbt' j,
          setAll_get?_out (bt :: rest) l 0 j (Or.inr (by omega)),
          hpres j hj, blendCacheGet_getD]
      · exact update_blend_targets_stable s' (bt :: rest) (setAll l 0 (bt :: rest))
          hbt' (by rw [hlen']; simpa using hlen)
          (fun i d hd => by
            have := setAll_get?_in (bt :: rest) l 0 i d hd (by simpa using hlen)
            rwa [show (0 : Nat) + i = i by omega] at this)

/-- Closed instance of C4 on a fresh recorder binding descriptors 7, 8. -/
theorem c4_witness :
    ∃ s', (linearInit 2).update_blend_targets [7, 8] = some s' ∧
      (([7, 8] : List Nat) ≠ [] → ([7, 8] : List Nat).length ≤ blendCacheLen s') ∧
      (∀ i d, ([7, 8] : List Nat).get? i = some d → blendCacheGet s' i = some d) ∧
      (∀ j, ([7, 8] : List Nat).length ≤ j →
        blendCacheGet s' j = blendCacheGet (linearInit 2) j) ∧
      s'.log = (linearInit 2).log ++
        blendEmits (linearInit 2).cache.blend_targets [7, 8] ∧
      s'.update_blend_targets [7, 8] = some s' :=
  c4_blend_cache_dedup (linearInit 2) [7, 8] (by decide)

theorem bindCache_program (c : Cache) (p : GraphicsPipeline) :
    (bindCache c p).program = some p.program := rfl

theorem bindCache_patch_size (c : Cache) (p : GraphicsPipeline) :
    (bindCache c p).patch_size = p.patch_size := rfl

theorem bindCache_blend_color (c : Cache) (p : GraphicsPipeline) :
    (bindCache c p).blend_color = c.blend_color := rfl

/-- Claim C5: a state-change command (bind-program, set-patch-size,
set-blend-color) is emitted only when the new value differs from the
cached one, including unknown-to-known transitions: binding the same
pipeline (program and patch size) or blend color twice in a row emits
exactly one corresponding command, and a further distinct blend color
emits one more command. -/
theorem c5_state_change_dedup (s : RawCommandBuffer) (p : GraphicsPipeline)
    (sz : GLint) (cv cv2 : ColorValue)
    (hc : s.consistent = true)
    (hsz : p.patch_size = some sz)
    (hprog : s.cache.program ≠ some p.program)
    (hpatch : s.cache.patch_size ≠ p.patch_size)
    (hbc : s.cache.blend_color ≠ some cv)
    (hcv : cv ≠ cv2) :
    ∃ s1 s2 t1 t3,
      s.bind_graphics_pipeline p = some s1 ∧
      s1.bind_graphics_pipeline p = some s2 ∧
      countCmd isBindProgram (s2.log.drop s.log.length) = 1 ∧
      countCmd isSetPatchSize (s2.log.drop s.log.length) = 1 ∧
      s2.set_blend_constants cv = some t1 ∧
      t1.set_blend_constants cv = some t1 ∧
      countCmd isSetBlendColor (t1.log.drop s2.log.length) = 1 ∧
      t1.set_blend_constants cv2 = some t3 ∧
      countCmd isSetBlendColor (t3.log.drop s2.log.length) = 2 := by
  obtain ⟨s1, hb1, hlog1, _, hcache1, _, hcons1⟩ := bind_graphics_pipeline_spec s p hc
  obtain ⟨s2, hb2, hlog2, _, hcache2, _, hcons2⟩ := bind_graphics_pipeline_spec s1 p hcons1
  have hdrop2 : s2.log.drop s.log.length =
      bindEmits s.cache p ++ bindEmits s1.cache p := by
    rw [hlog2, hlog1, List.append_assoc, List.drop_left]
  have hprogcount : countCmd isBindProgram (s2.log.drop s.log.length) = 1 := by
    rw [hdrop2, countCmd_append]
    have hA : countCmd isBindProgram (bindEmits s.cache p) = 1 := by
      unfold countCmd
      rw [filter_bindEmits_prog]
      simp [progEmits, hprog]
    have hB : countCmd isBindProgram (bindEmits s1.cache p) = 0 := by
      unfold countCmd
      rw [filter_bindEmits_prog, hcache1]
      unfold progEmits
      rw [if_neg (by simp [bindCache_program])]
      rfl
    omega
  have hpatchcount : countCmd isSetPatchSize (s2.log.drop s.log.length) = 1 := by
    rw [hdrop2, countCmd_append]
    have hA : countCmd isSetPatchSize (bindEmits s.cache p) = 1 := by
      unfold countCmd
      rw [filter_bindEmits_patch]
      unfold patchEmits
      rw [if_pos hpatch, hsz]
      rfl
    have hB : countCmd isSetPatchSize (bindEmits s1.cache p) = 0 := by
      unfold countCmd
      rw [filter_bindEmits_patch, hcache1]
      unfold patchEmits
      rw [if_neg (by simp [bindCache_patch_size])]
      rfl
    omega
  have hbc2 : s2.cache.blend_color = s.cache.blend_color := by
    rw [hcache2, bindCache_blend_color, hcache1, bindCache_blend_color]
  obtain ⟨t1, hset1, hlogt1, _, hcachet1, _, hconst1⟩ :=
    set_blend_constants_spec_ne s2 cv hcons2 (by rw [hbc2]; exact hbc)
  have ht1bc : t1.cache.blend_color = some cv := by rw [hcachet1]
  have hset11 : t1.set_blend_constants cv = some t1 :=
    set_blend_constants_spec_eq t1 cv ht1bc
  have hcount1 : countCmd isSetBlendColor (t1.log.drop s2.log.length) = 1 := by
    rw [hlogt1, List.drop_left]
    simp [countCmd, isSetBlendColor]
  obtain ⟨t3, hset3, hlogt3, _, _, _, _⟩ :=
    set_blend_constants_spec_ne t1 cv2 hconst1 (by rw [ht1bc]; simp [hcv])
  have hcount2 : countCmd isSetBlendColor (t3.log.drop s2.log.length) = 2 := by
    rw [hlogt3, hlogt1, List.append_assoc, List.drop_left]
    simp [countCmd, isSetBlendColor]
  exact ⟨s1, s2, t1, t3, hb1, hb2, hprogcount, hpatchcount, hset1, hset11,
    hcount1, hset3, hcount2⟩

/-- Closed instance of C5: binding pipeline `pipeA` twice and blend colors
twice/once from a fresh recorder. -/
theorem c5_witness :
    ∃ s1 s2 t1 t3,
      (linearInit 3).bind_graphics_pipeline pipeA = some s1 ∧
      s1.bind_graphics_pipeline pipeA = some s2 ∧
      countCmd isBindProgram (s2.log.drop (linearInit 3).log.length) = 1 ∧
      countCmd isSetPatchSize (s2.log.drop (linearInit 3).log.length) = 1 ∧
      s2.set_blend_constants (0, 0, 0, 0) = some t1 ∧
      t1.set_blend_constants (0, 0, 0, 0) = some t1 ∧
      countCmd isSetBlendColor (t1.log.drop s2.log.length) = 1 ∧
      t1.set_blend_constants (1, 0, 0, 0) = some t3 ∧
      countCmd isSetBlendColor (t3.log.drop s2.log.length) = 2 :=
  c5_state_change_dedup (linearInit 3) pipeA 3 (0, 0, 0, 0) (1, 0, 0, 0)
    (by decide) rfl (by decide) (by decide) (by decide) (by decide)

/-- Claim C9: every `bind_graphics_pipeline` call appends one
bind-attribute command per vertex attribute of the pipeline,
unconditionally — attribute binds are never deduplicated against the
cache, so rebinding the identical pipeline re-emits all of them. -/
theorem c9_attributes_always_rebound (s : RawCommandBuffer)
    (p : GraphicsPipeline) (hc : s.consistent = true) :
    ∃ s1 s2, s.bind_graphics_pipeline p = some s1 ∧
      (s1.log.drop s.log.length).filter isBindAttribute =
        p.attributes.map Command.BindAttribute ∧
      s1.bind_graphics_pipeline p = some s2 ∧
      (s2.log.drop s1.log.length).filter isBindAttribute =
        p.attributes.map Command.BindAttribute := by
  obtain ⟨s1, hb1, hlog1, _, _, _, hcons1⟩ := bind_graphics_pipeline_spec s p hc
  obtain ⟨s2, hb2, hlog2, _, _, _, _⟩ := bind_graphics_pipeline_spec s1 p hcons1
  refine ⟨s1, s2, hb1, ?_, hb2, ?_⟩
  · rw [hlog1, List.drop_left, filter_bindEmits_attr]
  · rw [hlog2, List.drop_left, filter_bindEmits_attr]

/-- Closed instance of C9: pipeline `pipeB` with attributes 11, 12 re-emits
both bind-attribute commands on the second identical bind. -/
theorem c9_witness :
    ∃ s1 s2, (linearInit 5).bind_graphics_pipeline pipeB = some s1 ∧
      (s1.log.drop (linearInit 5).log.length).filter isBindAttribute =
        [Command.BindAttribute 11, Command.BindAttribute 12] ∧
      s1.bind_graphics_pipeline pipeB = some s2 ∧
      (s2.log.drop s1.log.length).filter isBindAttribute =
        [Command.BindAttribute 11, Command.BindAttribute 12] :=
  c9_attributes_always_rebound (linearInit 5) pipeB (by decide)

end GfxGL
